import Mathlib

/-!
# WebBrowser2: the wrap compositor

A shallow embedding of `WrapCompositor` (builder.h), of the glyph containers
it works on (glyph.h) and of the comparison of cursors (poly_iterator.h),
followed by theorems about `Compose`, `ElementAdded`, `ElementRemoved`,
`RowGlyph::SetPosition`, `RowGlyph::SetWidth`, `ColumnGlyph::SetHeight` and
`poly_const_iterator::operator==`.

Conventions of the embedding

* A pointer is the address it holds (`Nat`); an iterator into a vector is
  its offset from `begin()`.
* C++ undefined behaviour (an index or iterator outside its container, a
  null or dangling pointer that is dereferenced, `erase` of `end()`) is a
  `Fault`; the operations that can reach one return `Except Fault _`.
* `GlyphComposite::Add` (glyph.h lines 130-132) has no `return` statement
  although it is declared to return `Glyph&`. Flowing off the end of such a
  function is undefined behaviour, and builder.h uses the result on lines 71
  and 84: `ComposeCommitted` is Compose as committed and ends in that fault
  on line 71. `Compose` is the body of Compose under the reading that Add
  returns the child it has just added; it is what the evaluations of the loop
  and the states built for ElementAdded and ElementRemoved use.
* `mComposition->Bounds().x` is not defined by `Composition` itself (the
  class is abstract); the target width is the field `Bounds` of the
  composition.
-/

namespace WebBrowser2

/-- Where the C++ leaves the defined behaviour. `fuel` is not a fault of the
program: it is returned when the loop budget given to the model runs out. -/
inductive Fault
  | outOfRange
  | badPointer
  | eraseEnd
  | divisionByZero
  | missingReturn
  | fuel
deriving DecidableEq, Repr

/-! ## Data model (glyph.h) -/

/-- BoundingBox and Vec2 are both glm::ivec2. -/
structure Vec2 where
  x : Int
  y : Int
deriving DecidableEq, Repr

abbrev BoundingBox := Vec2

/-- A glyph owned by the source sequence (an entry of RawGlyphs): its address
and what its Bounds() returns. -/
structure Glyph where
  addr : Nat
  Bounds : BoundingBox
deriving DecidableEq, Repr

/-- GlyphDecoratorNonOwner: a child of a row; it holds a pointer to a glyph
of the source sequence and forwards Bounds() to it. -/
structure GlyphDecoratorNonOwner where
  glyph : Glyph
deriving DecidableEq, Repr

/-- Bounds() of a decorator, glyph.h line 107. -/
def GlyphDecoratorNonOwner.Bounds (d : GlyphDecoratorNonOwner) : BoundingBox :=
  d.glyph.Bounds

/-- RowGlyph with the vector it inherits from GlyphComposite. addr is the
address of the object. A row made by make_unique is zero-initialised. -/
structure RowGlyph where
  addr : Nat
  mGlyphs : List GlyphDecoratorNonOwner := []
  mBounds : BoundingBox := ⟨0, 0⟩
  mPosition : Vec2 := ⟨0, 0⟩
  useBoundingWidth : Bool := false
  mGap : Nat := 0
deriving DecidableEq, Repr

/-- ColumnGlyph with the vector it inherits from GlyphComposite; its children
are the rows. -/
structure ColumnGlyph where
  mGlyphs : List RowGlyph := []
  mBounds : BoundingBox := ⟨0, 0⟩
  mPosition : Vec2 := ⟨0, 0⟩
deriving DecidableEq, Repr

/-- RowGlyph::Bounds, glyph.h line 183: the stored field mBounds. Nothing in
Add or Remove writes that field; only SetWidth does. -/
def RowGlyph.Bounds (r : RowGlyph) : BoundingBox := r.mBounds

/-- GlyphComposite::children, glyph.h line 175. -/
def RowGlyph.children (r : RowGlyph) : Nat := r.mGlyphs.length

/-- GlyphComposite::Add(glyph), glyph.h line 130: push_back. -/
def RowGlyph.Add (r : RowGlyph) (g : GlyphDecoratorNonOwner) : RowGlyph :=
  { r with mGlyphs := r.mGlyphs ++ [g] }

/-- GlyphComposite::children for the column. -/
def ColumnGlyph.children (c : ColumnGlyph) : Nat := c.mGlyphs.length

/-- GlyphComposite::Add(glyph) for the column: push_back of a row. -/
def ColumnGlyph.Add (c : ColumnGlyph) (r : RowGlyph) : ColumnGlyph :=
  { c with mGlyphs := c.mGlyphs ++ [r] }

/-! ## The compositor state (builder.h) -/

/-- The first component of an index entry, a RowGlyph*. -/
inductive RowPtr
  | null
  | row (addr : Nat)
  | stack
deriving DecidableEq, Repr

/-- A key of mIndex, a Glyph*: the address of a glyph of the source
sequence, or the address of a decorator (a row child) that wraps it. -/
inductive GlyphPtr
  | leaf (addr : Nat)
  | decorator (target : Nat)
deriving DecidableEq, Repr

/-- The mapped type of mIndex: (row, offset in row, offset in the source
sequence, offset of the row in the column). -/
abbrev IndexEntry := RowPtr × Nat × Nat × Nat

/-- The unordered_map mIndex as an association list with unique keys. -/
abbrev Index := List (GlyphPtr × IndexEntry)

/-- Lookup without insertion: mIndex.find(k). -/
def Index.find (m : Index) (k : GlyphPtr) : Option IndexEntry :=
  match m with
  | [] => none
  | (k', v) :: rest => if k' = k then some v else Index.find rest k

/-- The statement mIndex[k] = v: overwrite the entry of k or insert one. -/
def Index.assign (m : Index) (k : GlyphPtr) (v : IndexEntry) : Index :=
  match m with
  | [] => [(k, v)]
  | (k', v') :: rest =>
    if k' = k then (k, v) :: rest else (k', v') :: Index.assign rest k v

/-- Removal of the entry of k. -/
def Index.erase (m : Index) (k : GlyphPtr) : Index :=
  m.filter (fun e => e.1 ≠ k)

/-- Composition: the owner of the source sequence (RawGlyphs) and of the
tree (SelfGlyph). Bounds is what Bounds() of the concrete composition
returns; its x is the target width. -/
structure Composition where
  mGlyphs : List Glyph := []
  mSelfGlyph : Option ColumnGlyph := none
  Bounds : BoundingBox := ⟨0, 0⟩
deriving DecidableEq, Repr

/-- WrapCompositor together with the composition it points to. -/
structure WrapCompositor where
  mComposition : Composition
  mGap : Nat := 0
  mIndex : Index := []
deriving DecidableEq, Repr

/-! ## Compose (builder.h lines 68-91) -/

/-- The variables of the loop of Compose. `row` is the object the reference
`row` was bound to on line 71, the first child of the column; `rest` holds the
children of the column after it, so the column is `row :: rest`. -/
structure ComposeLoop where
  row : RowGlyph
  rest : List RowGlyph
  mIndex : Index
  i : Nat
deriving DecidableEq, Repr

/-- The value of column.children() inside the loop. -/
def ComposeLoop.columnChildren (st : ComposeLoop) : Nat := 1 + st.rest.length

/-- One iteration of the loop of Compose, lines 76-89.

Line 84, `row = column.Add(std::make_unique<RowGlyph>())`, appends a new row
to the column. `row` was declared `auto& row`, a `Glyph&`: the assignment
does not rebind the reference, it calls the copy assignment of `Glyph`, which
has no data member, on the object `row` already refers to. So the leaf of
line 85 goes to the same first row, and the new row stays empty. The new row
gets the next free address, the number of rows made so far. -/
def ComposeStep (width : Int) (st : ComposeLoop) (glyph : Glyph) : ComposeLoop :=
  let st1 : ComposeLoop :=
    if st.row.children = 0 then
      { st with row := st.row.Add ⟨glyph⟩ }
    else
      let gBounds := glyph.Bounds
      if st.row.Bounds.x + gBounds.x < width then
        { st with row := st.row.Add ⟨glyph⟩ }
      else
        { st with
          rest := st.rest ++ [{ addr := st.columnChildren }],
          row := st.row.Add ⟨glyph⟩ }
  { st1 with
    mIndex := st1.mIndex.assign (.leaf glyph.addr)
      (.row st1.row.addr, st1.row.children - 1, st1.i, st1.columnChildren - 1),
    i := st1.i + 1 }

/-- The body of WrapCompositor::Compose, read with Add returning the child it
has just added. The old tree is replaced by a column with one empty row (lines
69-71), the loop runs over RawGlyphs, mIndex is kept and written to. The
committed Add returns nothing: see ComposeCommitted. -/
def Compose (wc : WrapCompositor) : WrapCompositor :=
  let width := wc.mComposition.Bounds.x
  let init : ComposeLoop := { row := { addr := 0 }, rest := [], mIndex := wc.mIndex, i := 0 }
  let fin := wc.mComposition.mGlyphs.foldl (ComposeStep width) init
  { wc with
    mComposition := { wc.mComposition with mSelfGlyph := some { mGlyphs := fin.row :: fin.rest } },
    mIndex := fin.mIndex }

/-- The compositor when the call of Add on line 71 of Compose has pushed the
new row: line 69 has replaced the tree by an empty column, the column now
holds one empty row, and mIndex is as it was. -/
def ComposeCommitted.atFault (wc : WrapCompositor) : WrapCompositor :=
  let column : ColumnGlyph := ({} : ColumnGlyph).Add { addr := 0 }
  { wc with mComposition := { wc.mComposition with mSelfGlyph := some column } }

/-- WrapCompositor::Compose as committed. Line 69 replaces the tree by an
empty column. Line 71 is `auto& row = column.Add(std::make_unique<RowGlyph>())`:
Add (glyph.h lines 130-132) pushes the new row and then flows off its end
without a return statement, while the caller binds the result to `row` and
reads it on line 76. That is undefined behaviour, on every call and before the
loop is entered. The result is the fault together with the compositor as it is
at that point. -/
def ComposeCommitted (wc : WrapCompositor) : Except (Fault × WrapCompositor) WrapCompositor :=
  .error (.missingReturn, ComposeCommitted.atFault wc)

/-! ## Vector and map operations used by ElementAdded and ElementRemoved -/

/-- The expression RawGlyphs()[i].get(), and the dereference of an iterator at
offset i of RawGlyphs: a fault when i is outside the vector. -/
def Composition.RawGlyphAt (c : Composition) (i : Int) : Except Fault Glyph :=
  if i < 0 then .error .outOfRange
  else
    match c.mGlyphs[i.toNat]? with
    | some g => .ok g
    | none => .error .outOfRange

/-- The expression mIndex[k] used as a value: the entry of k, and the map
after the lookup. A key that is absent is inserted with a value-initialised
entry (null, 0, 0, 0). -/
def Index.subscript (m : Index) (k : GlyphPtr) : IndexEntry × Index :=
  match m.find k with
  | some v => (v, m)
  | none => ((.null, 0, 0, 0), m ++ [(k, (.null, 0, 0, 0))])

/-- The statement mIndex.erase(mIndex.find(k)): erasing the end iterator, which
find returns for an absent key, is a fault. -/
def Index.eraseFound (m : Index) (k : GlyphPtr) : Except Fault Index :=
  match m.find k with
  | some _ => .ok (m.erase k)
  | none => .error .eraseEnd

/-- GlyphComposite::Add(glyph, index), glyph.h line 134: insert before the
element at offset index. -/
def RowGlyph.AddAt (r : RowGlyph) (g : GlyphDecoratorNonOwner) (index : Nat) :
    Except Fault RowGlyph :=
  if index ≤ r.mGlyphs.length then
    .ok { r with mGlyphs := r.mGlyphs.take index ++ g :: r.mGlyphs.drop index }
  else .error .outOfRange

/-- GlyphComposite::Remove(it), glyph.h line 164: erase the element at offset
it. Erasing at or past the end is a fault. -/
def RowGlyph.Remove (r : RowGlyph) (it : Nat) : Except Fault RowGlyph :=
  if it < r.mGlyphs.length then .ok { r with mGlyphs := r.mGlyphs.eraseIdx it }
  else .error .outOfRange

/-- GlyphComposite::Remove(begin, end), glyph.h line 169, for a row. -/
def RowGlyph.RemoveRange (r : RowGlyph) (b e : Nat) : Except Fault RowGlyph :=
  if b ≤ e ∧ e ≤ r.mGlyphs.length then
    .ok { r with mGlyphs := r.mGlyphs.take b ++ r.mGlyphs.drop e }
  else .error .outOfRange

/-- GlyphComposite::Remove(begin, end), glyph.h line 169, for the column. -/
def ColumnGlyph.RemoveRange (c : ColumnGlyph) (b e : Nat) : Except Fault ColumnGlyph :=
  if b ≤ e ∧ e ≤ c.mGlyphs.length then
    .ok { c with mGlyphs := c.mGlyphs.take b ++ c.mGlyphs.drop e }
  else .error .outOfRange

/-- The rows of the tree, top to bottom; no rows when there is no tree. -/
def WrapCompositor.rows (wc : WrapCompositor) : List RowGlyph :=
  match wc.mComposition.mSelfGlyph with
  | none => []
  | some c => c.mGlyphs

/-- Dereference of a RowGlyph*: the row of the tree at that address. A null
pointer, the address of a local variable and an address at which the tree has
no row are faults. -/
def WrapCompositor.deref (wc : WrapCompositor) (p : RowPtr) : Except Fault RowGlyph :=
  match p with
  | .row a =>
    match wc.rows.find? (fun r => r.addr = a) with
    | some r => .ok r
    | none => .error .badPointer
  | _ => .error .badPointer

/-- Write through a RowGlyph*: the row of the tree at the address of r
becomes r. -/
def WrapCompositor.store (wc : WrapCompositor) (r : RowGlyph) : WrapCompositor :=
  match wc.mComposition.mSelfGlyph with
  | none => wc
  | some c =>
    { wc with mComposition := { wc.mComposition with
        mSelfGlyph := some { c with mGlyphs := c.mGlyphs.map (fun r' => if r'.addr = r.addr then r else r') } } }

/-! ## ElementAdded (builder.h lines 93-138) -/

/-- The loop of lines 113-117, run for the offsets it, it + 1, ... of
RawGlyphs, n times. Every new child is inserted at the same offset rawIndex
of the row, and its index entry stores `(RowGlyph*)&row`, the address of the
local pointer variable, in the place of the row. -/
def ElementAdded.insertLoop (row : RowPtr) (rawIndex rowsIndex : Nat) :
    Nat → Nat → Int → WrapCompositor → Except Fault (WrapCompositor × Int)
  | 0, _, index, wc => .ok (wc, index)
  | n + 1, it, index, wc => do
    let g ← wc.mComposition.RawGlyphAt it
    let r ← wc.deref row
    let r1 ← r.AddAt ⟨g⟩ rawIndex
    let wc1 := wc.store r1
    let wc2 := { wc1 with
      mIndex := wc1.mIndex.assign (.leaf g.addr) (.stack, rawIndex, index.toNat, rowsIndex) }
    ElementAdded.insertLoop row rawIndex rowsIndex n (it + 1) (index + 1) wc2

/-- The body of ElementAdded; `self` is the recursive call of line 136.

Line 99 reads `if (index = 0)`: an assignment. It stores 0 in index and the
condition is the stored value, so the branch of lines 100-102 is never taken
and line 105 evaluates `RawGlyphs()[index - 1]` with index - 1 = -1.

Lines 129-135: the loop tests the stored bounds of the row; its increment is
`--row`, which moves the pointer off the row object, so after one pass the
test dereferences a pointer that addresses no row. -/
def ElementAddedBody (self : WrapCompositor → Nat → Nat → Except Fault WrapCompositor)
    (wc : WrapCompositor) (begin end_ : Nat) : Except Fault WrapCompositor := do
  -- line 96
  let _indexOnEntry : Int := begin
  -- line 99
  let index : Int := 0
  let (row, rawIndex, rowsIndex, wc) ←
    (if index ≠ 0 then
      -- lines 100-102
      match wc.rows.head? with
      | some r => pure (RowPtr.row r.addr, 0, 0, wc)
      | none => throw Fault.outOfRange
    else do
      -- lines 105-108
      let g ← wc.mComposition.RawGlyphAt (index - 1)
      let ((nRow, _rowindex, _rawIndex, _rowsIndex), m) := wc.mIndex.subscript (.leaf g.addr)
      pure (nRow, _rawIndex, _rowsIndex, { wc with mIndex := m }))
  -- lines 113-117; with end before begin the iterator runs off RawGlyphs
  if end_ < begin then throw Fault.outOfRange
  let (wc, _) ← ElementAdded.insertLoop row rawIndex rowsIndex (end_ - begin) begin index wc
  -- line 121
  let r ← wc.deref row
  if r.children > 1 then
    let width := wc.mComposition.Bounds.x
    -- line 124: the key is the address of the last child itself, a decorator
    match r.mGlyphs.getLast? with
    | none => throw Fault.outOfRange
    | some d =>
      let ((_, _, endRawIndex, _), m) := wc.mIndex.subscript (.decorator d.glyph.addr)
      let wc := { wc with mIndex := m }
      let endRaw := endRawIndex + 1
      let startRaw := endRaw
      let it := r.children - 1
      if r.Bounds.x > width then
        let _ ← r.Remove it
        throw Fault.badPointer
      else
        self wc startRaw endRaw
  else pure wc

/-- WrapCompositor::ElementAdded(begin, end); begin and end are offsets into
RawGlyphs. The first argument bounds the depth of the recursion of line 136. -/
def ElementAdded : Nat → WrapCompositor → Nat → Nat → Except Fault WrapCompositor
  | 0 => ElementAddedBody (fun _ _ _ => .error .fuel)
  | fuel + 1 => ElementAddedBody (ElementAdded fuel)

/-! ## ElementRemoved (builder.h lines 140-200) -/

/-- The loop of lines 159-161, `for (it = b; it != rowEnd; it++) row->Remove(it)`,
with n = rowEnd - it passes left. rowEnd was taken before the loop and erase
shortens the vector, while it still advances after each erase. -/
def ElementRemoved.removeLoop : Nat → Nat → RowGlyph → Except Fault RowGlyph
  | 0, _, r => .ok r
  | n + 1, it, r => do
    let r1 ← r.Remove it
    ElementRemoved.removeLoop n (it + 1) r1

/-- The loop of lines 168-170 over the offsets it, it + 1, ... of RawGlyphs,
n times. -/
def ElementRemoved.eraseLoop (c : Composition) : Nat → Nat → Index → Except Fault Index
  | 0, _, m => .ok m
  | n + 1, it, m => do
    let g ← c.RawGlyphAt it
    let m1 ← m.eraseFound (.leaf g.addr)
    ElementRemoved.eraseLoop c n (it + 1) m1

/-- The while loop of lines 151-173. The loop variables are the compositor,
beginT and eraseRowEnd; the result is the compositor and eraseRowEnd. Line 152
looks up `begin`, not `beginT`. The first argument bounds the number of
passes. -/
def ElementRemoved.whileLoop (begin end_ amountToDelete : Nat) :
    Nat → WrapCompositor → Nat → Nat → Except Fault (WrapCompositor × Nat)
  | 0, wc, beginT, eraseRowEnd =>
    if beginT = end_ then .ok (wc, eraseRowEnd) else .error .fuel
  | fuel + 1, wc, beginT, eraseRowEnd =>
    if beginT = end_ then .ok (wc, eraseRowEnd)
    else do
      -- line 152
      let g ← wc.mComposition.RawGlyphAt begin
      let ((row, rowindex, _, _), m) := wc.mIndex.subscript (.leaf g.addr)
      let wc := { wc with mIndex := m }
      -- line 153
      let r ← wc.deref row
      let elemsAtStart := r.children
      let (wc, eraseRowEnd) ←
        (if elemsAtStart > amountToDelete then do
          -- lines 157-161
          let b := rowindex
          let rowEnd := r.children
          if rowEnd < b then throw Fault.outOfRange
          let r1 ← ElementRemoved.removeLoop (rowEnd - b) b r
          pure (wc.store r1, eraseRowEnd)
        else
          -- line 164
          pure (wc, eraseRowEnd + 1))
      -- lines 168-170; with end before beginT the iterator runs off RawGlyphs
      if end_ < beginT then throw Fault.outOfRange
      let m ← ElementRemoved.eraseLoop wc.mComposition (end_ - beginT) beginT wc.mIndex
      let wc := { wc with mIndex := m }
      -- line 172
      let r2 ← wc.deref row
      ElementRemoved.whileLoop begin end_ amountToDelete fuel wc
        (beginT + (elemsAtStart - r2.children)) eraseRowEnd

/-- The inner loop of lines 191-196: children of nextRow, from its front, are
moved to the end of row while `row->Bounds().x < width`. The result is the row
and the offset `it` reached in nextRow. -/
def ElementRemoved.pullLoop (width : Int) :
    RowGlyph → List GlyphDecoratorNonOwner → RowGlyph × Nat
  | row, [] => (row, 0)
  | row, d :: ds =>
    if row.Bounds.x < width then
      let (row1, it) := ElementRemoved.pullLoop width (row.Add d) ds
      (row1, it + 1)
    else (row, 0)

/-- The loop of lines 184-198 from the row at rowIt on: `row` is `*rowIt` and
the list holds the rows after it up to rowEnd. Line 197 erases the children of
nextRow before `it`. No index entry is written (line 195 is a comment). -/
def ElementRemoved.cascade (width : Int) : RowGlyph → List RowGlyph → List RowGlyph
  | row, [] => [row]
  | row, nextRow :: rest =>
    if row.Bounds.x < width then
      let (row1, it) := ElementRemoved.pullLoop width row nextRow.mGlyphs
      row1 :: ElementRemoved.cascade width { nextRow with mGlyphs := nextRow.mGlyphs.drop it } rest
    else row :: nextRow :: rest

/-- WrapCompositor::ElementRemoved(begin, end); begin and end are offsets into
RawGlyphs. The first argument bounds the passes of the while loop. -/
def ElementRemoved (fuel : Nat) (wc : WrapCompositor) (begin end_ : Nat) :
    Except Fault WrapCompositor := do
  -- lines 145-146, the difference converted to size_t
  let beginT := begin
  let amountToDelete : Nat := (((end_ : Int) - (begin : Int)) % (2 ^ 64 : Int)).toNat
  -- lines 148-149
  let g ← wc.mComposition.RawGlyphAt begin
  let ((_, _, _, eraseRowStart), m) := wc.mIndex.subscript (.leaf g.addr)
  let wc := { wc with mIndex := m }
  let eraseRowEnd := eraseRowStart
  -- lines 151-173
  let (wc, eraseRowEnd) ←
    ElementRemoved.whileLoop begin end_ amountToDelete fuel wc beginT eraseRowEnd
  -- line 175
  match wc.mComposition.mSelfGlyph with
  | none => throw Fault.badPointer
  | some column =>
    let column ← column.RemoveRange eraseRowStart eraseRowEnd
    -- lines 179-199
    if column.children ≠ eraseRowEnd then
      let width : Int := wc.mComposition.Bounds.x
      match column.mGlyphs.drop eraseRowEnd with
      | [] => throw Fault.outOfRange
      | row :: later =>
        let rows := column.mGlyphs.take eraseRowEnd ++ ElementRemoved.cascade width row later
        pure { wc with mComposition := { wc.mComposition with
                 mSelfGlyph := some { column with mGlyphs := rows } } }
    else
      pure { wc with mComposition := { wc.mComposition with mSelfGlyph := some column } }

/-! ## ElementRemoved with the state at the fault

ElementRemoved changes the rows and the index in place, so when it ends in a
fault the compositor is left as it is at that point. The definitions of this
section repeat lines 140-200 statement by statement and keep that state: an
error is the fault together with the row, the index or the compositor as it
is when the fault occurs. -/

/-- A fault raised while the compositor is wc. -/
def faultAt {α : Type} (wc : WrapCompositor) (x : Except Fault α) :
    Except (Fault × WrapCompositor) α :=
  match x with
  | .ok a => .ok a
  | .error f => .error (f, wc)

/-- The loop of lines 159-161 (see removeLoop); the error carries the row as
the erases made so far have left it. -/
def ElementRemoved.removeLoopAt : Nat → Nat → RowGlyph → Except (Fault × RowGlyph) RowGlyph
  | 0, _, r => .ok r
  | n + 1, it, r =>
    match r.Remove it with
    | .ok r1 => ElementRemoved.removeLoopAt n (it + 1) r1
    | .error f => .error (f, r)

/-- The loop of lines 168-170 (see eraseLoop); the error carries the index as
the erases made so far have left it. -/
def ElementRemoved.eraseLoopAt (c : Composition) :
    Nat → Nat → Index → Except (Fault × Index) Index
  | 0, _, m => .ok m
  | n + 1, it, m =>
    match c.RawGlyphAt it with
    | .error f => .error (f, m)
    | .ok g =>
      match m.eraseFound (.leaf g.addr) with
      | .error f => .error (f, m)
      | .ok m1 => ElementRemoved.eraseLoopAt c n (it + 1) m1

/-- The while loop of lines 151-173 (see whileLoop); the error carries the
compositor at the fault. -/
def ElementRemoved.whileLoopAt (begin end_ amountToDelete : Nat) :
    Nat → WrapCompositor → Nat → Nat →
      Except (Fault × WrapCompositor) (WrapCompositor × Nat)
  | 0, wc, beginT, eraseRowEnd =>
    if beginT = end_ then .ok (wc, eraseRowEnd) else .error (.fuel, wc)
  | fuel + 1, wc, beginT, eraseRowEnd =>
    if beginT = end_ then .ok (wc, eraseRowEnd)
    else do
      -- line 152
      let g ← faultAt wc (wc.mComposition.RawGlyphAt begin)
      let ((row, rowindex, _, _), m) := wc.mIndex.subscript (.leaf g.addr)
      let wc := { wc with mIndex := m }
      -- line 153
      let r ← faultAt wc (wc.deref row)
      let elemsAtStart := r.children
      let (wc, eraseRowEnd) ←
        (if elemsAtStart > amountToDelete then do
          -- lines 157-161
          let b := rowindex
          let rowEnd := r.children
          if rowEnd < b then throw (Fault.outOfRange, wc)
          match ElementRemoved.removeLoopAt (rowEnd - b) b r with
          | .error (f, r1) => throw (f, wc.store r1)
          | .ok r1 => pure (wc.store r1, eraseRowEnd)
        else
          -- line 164
          pure (wc, eraseRowEnd + 1))
      -- lines 168-170
      if end_ < beginT then throw (Fault.outOfRange, wc)
      match ElementRemoved.eraseLoopAt wc.mComposition (end_ - beginT) beginT wc.mIndex with
      | .error (f, m) => throw (f, { wc with mIndex := m })
      | .ok m =>
        let wc := { wc with mIndex := m }
        -- line 172
        let r2 ← faultAt wc (wc.deref row)
        ElementRemoved.whileLoopAt begin end_ amountToDelete fuel wc
          (beginT + (elemsAtStart - r2.children)) eraseRowEnd

/-- WrapCompositor::ElementRemoved(begin, end) (see ElementRemoved); the error
carries the compositor at the fault. -/
def ElementRemovedAt (fuel : Nat) (wc : WrapCompositor) (begin end_ : Nat) :
    Except (Fault × WrapCompositor) WrapCompositor := do
  -- lines 145-146
  let beginT := begin
  let amountToDelete : Nat := (((end_ : Int) - (begin : Int)) % (2 ^ 64 : Int)).toNat
  -- lines 148-149
  let g ← faultAt wc (wc.mComposition.RawGlyphAt begin)
  let ((_, _, _, eraseRowStart), m) := wc.mIndex.subscript (.leaf g.addr)
  let wc := { wc with mIndex := m }
  let eraseRowEnd := eraseRowStart
  -- lines 151-173
  let (wc, eraseRowEnd) ←
    ElementRemoved.whileLoopAt begin end_ amountToDelete fuel wc beginT eraseRowEnd
  -- line 175
  match wc.mComposition.mSelfGlyph with
  | none => throw (Fault.badPointer, wc)
  | some column =>
    let column ← faultAt wc (column.RemoveRange eraseRowStart eraseRowEnd)
    -- lines 179-199
    if column.children ≠ eraseRowEnd then
      let width : Int := wc.mComposition.Bounds.x
      match column.mGlyphs.drop eraseRowEnd with
      | [] =>
        throw (Fault.outOfRange,
          { wc with mComposition := { wc.mComposition with mSelfGlyph := some column } })
      | row :: later =>
        let rows := column.mGlyphs.take eraseRowEnd ++ ElementRemoved.cascade width row later
        pure { wc with mComposition := { wc.mComposition with
                 mSelfGlyph := some { column with mGlyphs := rows } } }
    else
      pure { wc with mComposition := { wc.mComposition with mSelfGlyph := some column } }

/-! ## Observations used by the statements -/

/-- The glyphs a row refers to, left to right. -/
def RowGlyph.leaves (r : RowGlyph) : List Glyph := r.mGlyphs.map (·.glyph)

/-- The sum of the widths of the children of a row. -/
def RowGlyph.childWidth (r : RowGlyph) : Int := (r.mGlyphs.map (·.Bounds.x)).sum

/-- The rows as lists of glyphs. -/
def WrapCompositor.partition (wc : WrapCompositor) : List (List Glyph) :=
  wc.rows.map RowGlyph.leaves

/-- The glyphs of the rows, rows top to bottom and each row left to right. -/
def WrapCompositor.flatten (wc : WrapCompositor) : List Glyph :=
  wc.partition.flatten

/-- Index/tree consistency at source offset i: the glyph at that offset has
an index entry (r, k, i, c), r is the address of the row at offset c of the
column, and the child at offset k of that row refers to the glyph. -/
def WrapCompositor.entryOK (wc : WrapCompositor) (i : Nat) : Bool :=
  match wc.mComposition.mGlyphs[i]? with
  | none => false
  | some g =>
    match wc.mIndex.find (.leaf g.addr) with
    | some (.row a, k, i', c) =>
      match wc.rows[c]? with
      | some r => r.addr == a && i' == i && r.mGlyphs[k]? == some ⟨g⟩
      | none => false
    | _ => false

/-- A consistent state: the glyphs of the source sequence and the rows of the
tree are distinct objects, the rows read top to bottom and left to right give
the source sequence, and every glyph of the source sequence has a consistent
index entry. -/
def Consistent (wc : WrapCompositor) : Prop :=
  (wc.mComposition.mGlyphs.map (·.addr)).Nodup ∧
  (wc.rows.map (·.addr)).Nodup ∧
  wc.flatten = wc.mComposition.mGlyphs ∧
  ∀ i, i < wc.mComposition.mGlyphs.length → wc.entryOK i = true

instance (wc : WrapCompositor) : Decidable (Consistent wc) := by
  unfold Consistent; infer_instance

/-- The width bound: every row with more than one child has a sum of child
widths of at most the target width. -/
def WidthBound (wc : WrapCompositor) : Prop :=
  ∀ r ∈ wc.rows, 1 < r.children → r.childWidth ≤ wc.mComposition.Bounds.x

instance (wc : WrapCompositor) : Decidable (WidthBound wc) := by
  unfold WidthBound; infer_instance

/-! ## The partition of the specification -/

/-- One step of the partition the specification describes for Compose
(section 4.3): the pair is (the rows already closed, the current row). The
leaf joins the current row when that row is empty or when the sum of the
widths in it plus the width of the leaf is below the target width; otherwise
the current row is closed and a new row receives the leaf. This definition
follows the specification, not the code. -/
def specComposeStep (W : Int) (acc : List (List Glyph) × List Glyph) (g : Glyph) :
    List (List Glyph) × List Glyph :=
  if acc.2 = [] ∨ (acc.2.map (·.Bounds.x)).sum + g.Bounds.x < W then (acc.1, acc.2 ++ [g])
  else (acc.1 ++ [acc.2], [g])

/-- The greedy one-pass partition of the specification, as a list of rows. -/
def specCompose (W : Int) (leaves : List Glyph) : List (List Glyph) :=
  let acc := leaves.foldl (specComposeStep W) ([], [])
  acc.1 ++ [acc.2]

/-! ## Concrete states used by the evaluations -/

/-- A glyph of the source sequence with the given address and width. -/
def mkGlyph (addr : Nat) (w : Int) : Glyph := ⟨addr, ⟨w, 0⟩⟩

/-- A compositor before its first Compose: a source sequence, a target width,
no tree and an empty index. -/
def WrapCompositor.fresh (src : List Glyph) (W : Int) : WrapCompositor :=
  { mComposition := { mGlyphs := src, Bounds := ⟨W, 0⟩ } }

/-- The document owner replaces the source sequence (an edit of RawGlyphs made
outside the compositor, before it is notified). -/
def WrapCompositor.withSource (wc : WrapCompositor) (src : List Glyph) : WrapCompositor :=
  { wc with mComposition := { wc.mComposition with mGlyphs := src } }

/-- Four leaves of width 40 (the scenario of section 8). -/
def fourLeaves : List Glyph := [mkGlyph 100 40, mkGlyph 101 40, mkGlyph 102 40, mkGlyph 103 40]

/-- A leaf of width 40 followed by a leaf of width 120. -/
def narrowWide : List Glyph := [mkGlyph 100 40, mkGlyph 101 120]

/-- Two leaves of width 40. -/
def twoLeaves : List Glyph := [mkGlyph 100 40, mkGlyph 101 40]

/-- Two leaves of width 50: together exactly the target width 100. -/
def halfLeaves : List Glyph := [mkGlyph 100 50, mkGlyph 101 50]

/-- Three leaves of width 40. -/
def threeLeaves : List Glyph := [mkGlyph 100 40, mkGlyph 101 40, mkGlyph 102 40]

/-- A leaf the document owner inserts into the source sequence. -/
def newLeaf : Glyph := mkGlyph 200 10

/-- A consistent state with two rows of two leaves of width 40 each and
target width 100; the rows are as make_unique leaves them (stored bounds 0)
and every index entry names the row and the offsets of its leaf. -/
def twoRows : WrapCompositor :=
  { mComposition :=
      { mGlyphs := fourLeaves,
        mSelfGlyph := some { mGlyphs :=
          [ { addr := 0, mGlyphs := [⟨mkGlyph 100 40⟩, ⟨mkGlyph 101 40⟩] },
            { addr := 1, mGlyphs := [⟨mkGlyph 102 40⟩, ⟨mkGlyph 103 40⟩] } ] },
        Bounds := ⟨100, 0⟩ },
    mIndex :=
      [ (.leaf 100, (.row 0, 0, 0, 0)), (.leaf 101, (.row 0, 1, 1, 0)),
        (.leaf 102, (.row 1, 0, 2, 1)), (.leaf 103, (.row 1, 1, 3, 1)) ] }

/-- The state ElementRemoved leaves when the second leaf of the first row of
twoRows is removed: the first row holds the three remaining leaves, the second
row is empty, and the index entries of the two leaves that moved still name
the second row. -/
def twoRowsAfter : WrapCompositor :=
  { mComposition :=
      { mGlyphs := fourLeaves,
        mSelfGlyph := some { mGlyphs :=
          [ { addr := 0, mGlyphs := [⟨mkGlyph 100 40⟩, ⟨mkGlyph 102 40⟩, ⟨mkGlyph 103 40⟩] },
            { addr := 1, mGlyphs := [] } ] },
        Bounds := ⟨100, 0⟩ },
    mIndex :=
      [ (.leaf 100, (.row 0, 0, 0, 0)),
        (.leaf 102, (.row 1, 0, 2, 1)), (.leaf 103, (.row 1, 1, 3, 1)) ] }

/-! ## Machine integers

The components of glm::ivec2 are `int` (32 bits) and heights and widths are
passed as `size_t` (64 bits). A conversion between the two is modular and is
written out. The additions of lines 190, 213 and 223, `pos.x += ...` on two
`int` values, are taken modulo 2^32 in two's complement, which is what the
compiled code computes when the sum leaves the range of int. -/

/-- Conversion of an int to size_t: the value modulo 2^64. -/
def toSizeT (i : Int) : Nat := (i % (2 ^ 64 : Int)).toNat

/-- Conversion of a size_t to int: the value modulo 2^32, taken in the range
from -2^31 up to 2^31 - 1. -/
def toInt (n : Nat) : Int := ((n : Int) + 2 ^ 31) % 2 ^ 32 - 2 ^ 31

/-- The value an int holds after an addition whose exact result is i: i
modulo 2^32, taken in the range from -2^31 up to 2^31 - 1. -/
def intWrap (i : Int) : Int := (i + 2 ^ 31) % 2 ^ 32 - 2 ^ 31

/-- The range of int. -/
def inIntRange (i : Int) : Prop := -2 ^ 31 ≤ i ∧ i < 2 ^ 31

instance (i : Int) : Decidable (inIntRange i) := by
  unfold inIntRange; infer_instance

/-! ## RowGlyph: SetPosition, SetWidth, SetHeight (glyph.h lines 185-231)

A child of a row is a decorator that forwards SetPosition and SetHeight to
its glyph. The result of an operation is the row afterwards and the arguments
of the calls made on the children, in the order of the children. -/

/-- The loop of lines 188-191 (and of lines 221-224): the child gets
SetPosition(pos), then pos.x grows by the width of the child. -/
def RowGlyph.placeLoop : Vec2 → List GlyphDecoratorNonOwner → List Vec2
  | _, [] => []
  | pos, g :: gs =>
    pos :: RowGlyph.placeLoop { pos with x := intWrap (pos.x + g.Bounds.x) } gs

/-- RowGlyph::SetPosition, lines 185-192. -/
def RowGlyph.SetPosition (r : RowGlyph) (position : Vec2) : RowGlyph × List Vec2 :=
  ({ r with mPosition := position }, RowGlyph.placeLoop position r.mGlyphs)

/-- The loop of lines 201-214. left is mPosition.x, boundsX is mBounds.x; the
loop variables are pos, maxHeight and lastLineMaxHeight.

Line 203 reads `if (gBounds.x || pos.x > mBounds.x)`: the comparison binds
tighter than `||`, so the test holds as soon as the width of the child is not
zero. maxHeight and lastLineMaxHeight are size_t, so the comparison of line 209
and the sum of line 205 are made in size_t. -/
def RowGlyph.flowLoop (left boundsX : Int) (mGap : Nat) :
    Vec2 → Nat → Nat → List GlyphDecoratorNonOwner → List Vec2
  | _, _, _, [] => []
  | pos, maxHeight, lastLineMaxHeight, g :: gs =>
    let gBounds := g.Bounds
    let (pos, maxHeight, lastLineMaxHeight) :=
      if gBounds.x ≠ 0 ∨ pos.x > boundsX then
        -- lines 204-207
        (({ x := left, y := toInt (toSizeT pos.y + mGap + lastLineMaxHeight) } : Vec2),
          0, maxHeight)
      else (pos, maxHeight, lastLineMaxHeight)
    -- lines 209-211
    let maxHeight := if toSizeT gBounds.y > maxHeight then toSizeT gBounds.y else maxHeight
    -- lines 212-213
    pos :: RowGlyph.flowLoop left boundsX mGap { pos with x := intWrap (pos.x + gBounds.x) }
      maxHeight lastLineMaxHeight gs

/-- RowGlyph::SetWidth, lines 193-227. -/
def RowGlyph.SetWidth (r : RowGlyph) (width : Option Nat) : RowGlyph × List Vec2 :=
  match width with
  | some w =>
    if !r.useBoundingWidth || toSizeT r.mBounds.x != w then
      let r1 := { r with mBounds := { r.mBounds with x := toInt w }, useBoundingWidth := true }
      (r1, RowGlyph.flowLoop r1.mPosition.x r1.mBounds.x r1.mGap r1.mPosition 0 0 r1.mGlyphs)
    else (r, [])
  | none =>
    if r.useBoundingWidth then
      ({ r with useBoundingWidth := false }, RowGlyph.placeLoop r.mPosition r.mGlyphs)
    else (r, [])

/-- RowGlyph::SetHeight, lines 228-230, which is GlyphComposite::SetHeight,
lines 150-154: every child gets SetHeight(height). -/
def RowGlyph.SetHeight (r : RowGlyph) (height : Option Nat) : List (Option Nat) :=
  r.mGlyphs.map (fun _ => height)

/-! ## ColumnGlyph: SetHeight (glyph.h lines 246-254) -/

/-- GlyphComposite::SetHeight, lines 150-154, for the column: every child (a
row) gets SetHeight(height). The result lists the argument each child gets. -/
def ColumnGlyph.compositeSetHeight (c : ColumnGlyph) (height : Option Nat) :
    List (Option Nat) :=
  c.mGlyphs.map (fun _ => height)

/-- ColumnGlyph::SetHeight. Line 248 stores the size_t height in the int
mBounds.y. Line 249 divides the int mBounds.y by the size_t children(): the
division is made in size_t, and a divisor 0 is a fault. The result is the
column afterwards and the argument each child gets. -/
def ColumnGlyph.SetHeight (c : ColumnGlyph) (height : Option Nat) :
    Except Fault (ColumnGlyph × List (Option Nat)) :=
  match height with
  | some h =>
    let c1 := { c with mBounds := { c.mBounds with y := toInt h } }
    if c1.children = 0 then .error .divisionByZero
    else .ok (c1, c1.compositeSetHeight (some (toSizeT c1.mBounds.y / c1.children)))
  | none => .ok (c, c.compositeSetHeight none)

/-! ## poly_const_iterator (poly_iterator.h) -/

/-- The struct model<Iter> behind a cursor: `type` stands for typeid(_iter),
the identity of the concrete iterator type, and `_iter` for the position the
wrapped iterator denotes. -/
structure poly_const_iterator.model where
  type : Nat
  _iter : Nat
deriving DecidableEq, Repr

/-- model::equal, line 29: the wrapped iterators are compared. -/
def poly_const_iterator.model.equal (l r : poly_const_iterator.model) : Bool :=
  l._iter == r._iter

/-- The cursor: `_impl` is the unique_ptr to the model, none when it is null
(a default-constructed cursor). -/
structure poly_const_iterator where
  _impl : Option poly_const_iterator.model
deriving DecidableEq, Repr

/-- The comparison operator==, lines 84-86:
`_impl->type() == r._impl->type() && _impl->equal(r._impl->address())`.
Dereferencing a null `_impl` is a fault. -/
def poly_const_iterator.operatorEq (l r : poly_const_iterator) : Except Fault Bool :=
  match l._impl, r._impl with
  | some a, some b => .ok (a.type == b.type && a.equal b)
  | _, _ => .error .badPointer

/-- The comparison operator!=, lines 88-90: `!(*this == r)`. -/
def poly_const_iterator.operatorNe (l r : poly_const_iterator) : Except Fault Bool :=
  (l.operatorEq r).map (fun b => !b)

/-! ## More concrete states -/

/-- A leaf that is in the source sequence and has no index entry. -/
def untrackedLeaf : Glyph := mkGlyph 300 10

/-- Two leaves composed into one row, after which the source sequence has
gained a third leaf the compositor was never told about. -/
def withUntracked : WrapCompositor :=
  (Compose (WrapCompositor.fresh twoLeaves 100)).withSource
    [mkGlyph 100 40, mkGlyph 101 40, untrackedLeaf]

/-- Three leaves composed into one row, after which the source sequence has
gained a fourth leaf the compositor was never told about. -/
def trackedThenUntracked : WrapCompositor :=
  (Compose (WrapCompositor.fresh threeLeaves 200)).withSource
    [mkGlyph 100 40, mkGlyph 101 40, mkGlyph 102 40, untrackedLeaf]

/-- The compositor as ElementRemoved leaves it when it ends in a fault on
trackedThenUntracked and the source offsets 2 to 4: the tracked leaf 102 is
gone from the row and from the index. -/
def trackedThenUntrackedAtFault : WrapCompositor :=
  { mComposition :=
      { mGlyphs := [mkGlyph 100 40, mkGlyph 101 40, mkGlyph 102 40, untrackedLeaf],
        mSelfGlyph := some { mGlyphs :=
          [ { addr := 0, mGlyphs := [⟨mkGlyph 100 40⟩, ⟨mkGlyph 101 40⟩] } ] },
        Bounds := ⟨200, 0⟩ },
    mIndex := [ (.leaf 100, (.row 0, 0, 0, 0)), (.leaf 101, (.row 0, 1, 1, 0)) ] }

/-- A row at position (0, 0) with three children, each 10 wide and 5 high. -/
def threeSmall : RowGlyph :=
  { addr := 0, mGlyphs := [⟨⟨100, ⟨10, 5⟩⟩⟩, ⟨⟨101, ⟨10, 5⟩⟩⟩, ⟨⟨102, ⟨10, 5⟩⟩⟩] }

/-- A compositor whose index holds an entry for the leaf 100 of an earlier
source sequence and whose current source sequence is the single leaf 101. -/
def staleIndex : WrapCompositor :=
  { WrapCompositor.fresh [mkGlyph 101 40] 100 with mIndex := [(.leaf 100, (.row 0, 0, 0, 0))] }

/-- A row with two children, each 10 wide and 5 high. -/
def twoAtEdge : RowGlyph :=
  { addr := 0, mGlyphs := [⟨⟨100, ⟨10, 5⟩⟩⟩, ⟨⟨101, ⟨10, 5⟩⟩⟩] }

/-- A column with one (empty) row. -/
def oneRowColumn : ColumnGlyph := { mGlyphs := [{ addr := 0 }] }

/-- A column with three rows. -/
def threeRowColumn : ColumnGlyph := { mGlyphs := [{ addr := 0 }, { addr := 1 }, { addr := 2 }] }

/-- A cursor over a vector of glyph pointers (type 0) at position 7. -/
def vectorCursor : poly_const_iterator := ⟨some ⟨0, 7⟩⟩

/-- A cursor of another concrete iterator type (type 1) at the same position. -/
def otherCursor : poly_const_iterator := ⟨some ⟨1, 7⟩⟩

/-! ## Compose: lemmas -/

theorem ComposeStep_row_leaves (width : Int) (st : ComposeLoop) (g : Glyph) :
    (ComposeStep width st g).row.leaves = st.row.leaves ++ [g] := by
  simp only [ComposeStep]
  split_ifs <;> simp [RowGlyph.leaves, RowGlyph.Add]

theorem ComposeStep_rest_empty (width : Int) (st : ComposeLoop) (g : Glyph)
    (h : ∀ r ∈ st.rest, r.mGlyphs = []) :
    ∀ r ∈ (ComposeStep width st g).rest, r.mGlyphs = [] := by
  simp only [ComposeStep]
  split_ifs
  · exact h
  · exact h
  · intro r hr
    rcases List.mem_append.mp hr with hr | hr
    · exact h r hr
    · rw [List.mem_singleton.mp hr]

theorem Compose_fold_leaves (width : Int) (src : List Glyph) (st : ComposeLoop)
    (h : ∀ r ∈ st.rest, r.mGlyphs = []) :
    (src.foldl (ComposeStep width) st).row.leaves = st.row.leaves ++ src ∧
    ∀ r ∈ (src.foldl (ComposeStep width) st).rest, r.mGlyphs = [] := by
  induction src generalizing st with
  | nil => simpa using h
  | cons g gs ih =>
    have := ih (ComposeStep width st g) (ComposeStep_rest_empty width st g h)
    simpa [ComposeStep_row_leaves] using this

theorem flatten_empty_rows (rows : List RowGlyph) (h : ∀ r ∈ rows, r.mGlyphs = []) :
    (rows.map RowGlyph.leaves).flatten = [] := by
  induction rows with
  | nil => rfl
  | cons r rs ih =>
    have hr : r.mGlyphs = [] := h r (by simp)
    have := ih (fun r' hr' => h r' (by simp [hr']))
    simp [RowGlyph.leaves, hr, this]

/-- Compose puts every leaf of the source sequence, in order, into the first
row of the column, whatever the widths are; the rows after it are empty. -/
theorem Compose_rows_shape (wc : WrapCompositor) :
    (Compose wc).partition.head? = some wc.mComposition.mGlyphs ∧
    ∀ r ∈ (Compose wc).rows.tail, r.mGlyphs = [] := by
  have h := Compose_fold_leaves wc.mComposition.Bounds.x wc.mComposition.mGlyphs
    { row := { addr := 0 }, rest := [], mIndex := wc.mIndex, i := 0 } (by simp)
  simp only [WrapCompositor.partition, WrapCompositor.rows, Compose, List.map_cons,
    List.head?_cons, List.tail_cons]
  refine ⟨?_, h.2⟩
  rw [h.1]
  simp [RowGlyph.leaves]

/-! ## Compose: the claims -/

/-- C1 (the code departs from the claim). On the scenario of the
specification, four leaves of width 40 and target width 100, Compose puts all
four leaves in one row, while the greedy partition of the specification has
the two rows of two leaves each. The test of line 80 reads the stored bounds
of the row, which no Add updates. -/
theorem Compose_scenario_one_row :
    (Compose (WrapCompositor.fresh fourLeaves 100)).partition = [fourLeaves] ∧
    specCompose 100 fourLeaves =
      [[mkGlyph 100 40, mkGlyph 101 40], [mkGlyph 102 40, mkGlyph 103 40]] := by
  constructor <;> decide

/-- C2 (the code departs from the claim). After Compose of four leaves of
width 40 with target width 100 the column has one row, it holds four children
and the sum of their widths is 160, above the target width: the width bound
fails. -/
theorem Compose_breaks_width_bound :
    (Compose (WrapCompositor.fresh fourLeaves 100)).rows.map
        (fun r => (r.children, r.childWidth)) = [(4, 160)] ∧
    ¬ WidthBound (Compose (WrapCompositor.fresh fourLeaves 100)) := by
  constructor <;> decide

/-- Under the reading that Add returns the child it has just added: for every
compositor state, the body of Compose leaves rows whose glyphs, rows taken top
to bottom and each row left to right, are exactly the source sequence. The
committed Compose does not get that far (ComposeCommitted). -/
theorem Compose_flatten_eq_source (wc : WrapCompositor) :
    (Compose wc).flatten = wc.mComposition.mGlyphs := by
  have h := Compose_fold_leaves wc.mComposition.Bounds.x wc.mComposition.mGlyphs
    { row := { addr := 0 }, rest := [], mIndex := wc.mIndex, i := 0 } (by simp)
  simp only [WrapCompositor.flatten, WrapCompositor.partition, WrapCompositor.rows, Compose,
    List.map_cons, List.flatten_cons]
  rw [h.1, flatten_empty_rows _ h.2]
  simp [RowGlyph.leaves]

/-- C4 (the code departs from the claim). Compose of a leaf of width 40 and a
leaf of width 120 with target width 100: the second leaf fails the test of
line 80, a second row is appended, and the leaf is still added to the first
row. Its index entry is (first row, 1, 1, 1): the row recorded is the first
row, the column offset recorded is 1, and the row at offset 1 is the new,
empty row. The entry is not consistent with the tree. -/
theorem Compose_index_row_offset_mismatch :
    (Compose (WrapCompositor.fresh narrowWide 100)).partition = [narrowWide, []] ∧
    (Compose (WrapCompositor.fresh narrowWide 100)).mIndex.find (.leaf 101)
      = some (.row 0, 1, 1, 1) ∧
    (Compose (WrapCompositor.fresh narrowWide 100)).rows.map (·.addr) = [0, 1] ∧
    (Compose (WrapCompositor.fresh narrowWide 100)).entryOK 1 = false := by
  refine ⟨?_, ?_, ?_, ?_⟩ <;> decide

/-! ## ElementAdded -/

/-- ElementAdded ends in the fault of line 105 on every input: after the
assignment of line 99 the subscript is `RawGlyphs()[-1]`. -/
theorem ElementAdded_outOfRange (fuel : Nat) (wc : WrapCompositor) (begin end_ : Nat) :
    ElementAdded fuel wc begin end_ = .error .outOfRange := by
  cases fuel <;> rfl

/-- C5 (the code departs from the claim). Two leaves of width 40 are composed
with target width 100 into one row, a consistent state; the document owner
inserts a new leaf at source position 1 and calls ElementAdded on it. The
call does not insert the leaf after the leaf at position 0: it ends in the
out-of-range subscript of line 105, for every recursion budget. -/
theorem ElementAdded_anchor_lookup_faults :
    Consistent (Compose (WrapCompositor.fresh twoLeaves 100)) ∧
    (Compose (WrapCompositor.fresh twoLeaves 100)).partition = [twoLeaves] ∧
    ∀ fuel, ElementAdded fuel
      ((Compose (WrapCompositor.fresh twoLeaves 100)).withSource
        [mkGlyph 100 40, newLeaf, mkGlyph 101 40]) 1 2 = .error .outOfRange := by
  refine ⟨by decide, by decide, fun fuel => ElementAdded_outOfRange fuel _ 1 2⟩

/-- C6 (the code departs from the claim). Two leaves of width 50 are composed
with target width 100: one row whose children add up to exactly 100, a
consistent state within the width bound. One more leaf is inserted at source
position 1. ElementAdded moves no leaf to a following row: it ends in the
out-of-range subscript of line 105 before it touches the row. -/
theorem ElementAdded_full_row_faults :
    Consistent (Compose (WrapCompositor.fresh halfLeaves 100)) ∧
    WidthBound (Compose (WrapCompositor.fresh halfLeaves 100)) ∧
    (Compose (WrapCompositor.fresh halfLeaves 100)).rows.map RowGlyph.childWidth = [100] ∧
    ∀ fuel, ElementAdded fuel
      ((Compose (WrapCompositor.fresh halfLeaves 100)).withSource
        [mkGlyph 100 50, newLeaf, mkGlyph 101 50]) 1 2 = .error .outOfRange := by
  refine ⟨by decide, by decide, by decide, fun fuel => ElementAdded_outOfRange fuel _ 1 2⟩

/-! ## ElementRemoved -/

/-- C7 (the code departs from the claim). Three leaves of width 40 composed
with target width 200 form one row, a consistent state. ElementRemoved on the
middle leaf erases it at offset 1 and goes on to offset 2 with the end
iterator taken before the erase, where the shortened row has no element: the
call ends in a fault and no state without the leaf is reached. -/
theorem ElementRemoved_middle_leaf_faults :
    Consistent (Compose (WrapCompositor.fresh threeLeaves 200)) ∧
    (Compose (WrapCompositor.fresh threeLeaves 200)).partition = [threeLeaves] ∧
    ElementRemoved 0 (Compose (WrapCompositor.fresh threeLeaves 200)) 1 2 = .error .fuel ∧
    ∀ fuel, ElementRemoved (fuel + 1) (Compose (WrapCompositor.fresh threeLeaves 200)) 1 2
      = .error .outOfRange := by
  refine ⟨by decide, by decide, rfl, fun fuel => ?_⟩
  rfl

/-- C8 (the code departs from the claim). One leaf composed into a row of its
own, a consistent state. ElementRemoved on that leaf does not complete: the
row has no more children than the range has leaves, so line 164 runs, the
index entry of the leaf is erased, beginT does not advance, and the second
pass of the while loop reads a value-initialised entry and dereferences its
null row pointer. With fewer than two passes allowed the budget runs out. -/
theorem ElementRemoved_sole_leaf_faults :
    Consistent (Compose (WrapCompositor.fresh [mkGlyph 100 40] 100)) ∧
    (Compose (WrapCompositor.fresh [mkGlyph 100 40] 100)).partition = [[mkGlyph 100 40]] ∧
    ElementRemoved 0 (Compose (WrapCompositor.fresh [mkGlyph 100 40] 100)) 0 1 = .error .fuel ∧
    ElementRemoved 1 (Compose (WrapCompositor.fresh [mkGlyph 100 40] 100)) 0 1 = .error .fuel ∧
    ∀ fuel, ElementRemoved (fuel + 2) (Compose (WrapCompositor.fresh [mkGlyph 100 40] 100)) 0 1
      = .error .badPointer := by
  refine ⟨by decide, by decide, rfl, rfl, fun fuel => ?_⟩
  rfl

/-- C9 (the code departs from the claim). The state twoRows is the partition
the specification gives for four leaves of width 40 and target width 100; it
is consistent and satisfies the width bound. ElementRemoved on the second leaf
of the first row completes; its reverse cascade tests the stored bounds of the
row, which stay 0, so it moves both leaves of the second row up. The first row
ends with three children of total width 120, above the target width 100, and
the second row is left empty.

On a state that Compose itself builds, three leaves of width 40 in one row
with target width 200, ElementRemoved on the first two leaves does not reach
the cascade: the loop of lines 159-161 erases past the end of the shortened
row. -/
theorem ElementRemoved_cascade_overfills :
    Consistent twoRows ∧ WidthBound twoRows ∧
    twoRows.partition = specCompose 100 fourLeaves ∧
    (∀ fuel, ElementRemoved (fuel + 1) twoRows 1 2 = .ok twoRowsAfter) ∧
    twoRowsAfter.partition = [[mkGlyph 100 40, mkGlyph 102 40, mkGlyph 103 40], []] ∧
    twoRowsAfter.rows.map RowGlyph.childWidth = [120, 0] ∧
    ¬ WidthBound twoRowsAfter ∧
    Consistent (Compose (WrapCompositor.fresh threeLeaves 200)) ∧
    WidthBound (Compose (WrapCompositor.fresh threeLeaves 200)) ∧
    ∀ fuel, ElementRemoved (fuel + 1) (Compose (WrapCompositor.fresh threeLeaves 200)) 0 2
      = .error .outOfRange := by
  refine ⟨by decide, by decide, by decide, fun fuel => ?_, by decide, by decide, by decide,
    by decide, by decide, fun fuel => rfl⟩
  cases fuel <;> rfl

/-- C10 (the code departs from the claim). Two leaves of width 40 are composed
with target width 100, a consistent state; a new leaf is appended to the
source sequence at position 2, which would overflow no row. ElementAdded
followed by ElementRemoved on that leaf does not give back the rows: the first
call already ends in the out-of-range subscript of line 105. -/
theorem ElementAdded_then_ElementRemoved_faults :
    Consistent (Compose (WrapCompositor.fresh twoLeaves 100)) ∧
    ∀ fuel, (ElementAdded fuel
        ((Compose (WrapCompositor.fresh twoLeaves 100)).withSource
          [mkGlyph 100 40, mkGlyph 101 40, newLeaf]) 2 3
      >>= fun wc => ElementRemoved fuel wc 2 3) = .error .outOfRange := by
  refine ⟨by decide, fun fuel => ?_⟩
  rw [ElementAdded_outOfRange]
  rfl

/-! ## Compose and the index -/

/-- Lookup after `mIndex[k] = v`. -/
theorem Index_find_assign (m : Index) (k k' : GlyphPtr) (v : IndexEntry) :
    (Index.assign m k v).find k' = if k = k' then some v else m.find k' := by
  induction m with
  | nil => simp [Index.assign, Index.find]
  | cons e rest ih =>
    obtain ⟨ke, ve⟩ := e
    simp only [Index.assign]
    by_cases h1 : ke = k
    · subst h1
      by_cases h2 : ke = k' <;> simp [Index.find, h2]
    · by_cases h2 : k = k'
      · subst h2
        simp [Index.find, h1, ih]
      · by_cases h3 : ke = k'
        · subst h3
          simp [Index.find, h1, h2]
        · simp [Index.find, h1, h2, h3, ih]

/-- The index a pass of the loop of Compose starts from only matters through
the assignment of line 88; the entry written does not depend on it. -/
theorem ComposeStep_with_index (width : Int) (st : ComposeLoop) (g : Glyph) (m : Index) :
    ComposeStep width { st with mIndex := m } g =
      { ComposeStep width st g with
        mIndex := Index.assign m (.leaf g.addr)
          (.row (ComposeStep width st g).row.addr, (ComposeStep width st g).row.children - 1,
            st.i, (ComposeStep width st g).columnChildren - 1) } := by
  simp only [ComposeStep]
  split_ifs <;> rfl

/-- The loop of Compose started from another index: the rows are the same; a
key that is no glyph of the source sequence keeps its entry; a key that is one
gets an entry, the same whatever the index at the start was. -/
theorem Compose_fold_index (width : Int) (l : List Glyph) (st : ComposeLoop) (m : Index)
    (k : GlyphPtr) :
    (l.foldl (ComposeStep width) { st with mIndex := m }).row
      = (l.foldl (ComposeStep width) st).row ∧
    (l.foldl (ComposeStep width) { st with mIndex := m }).rest
      = (l.foldl (ComposeStep width) st).rest ∧
    (k ∉ l.map (fun g => GlyphPtr.leaf g.addr) →
      (l.foldl (ComposeStep width) { st with mIndex := m }).mIndex.find k = m.find k) ∧
    (k ∈ l.map (fun g => GlyphPtr.leaf g.addr) →
      (l.foldl (ComposeStep width) { st with mIndex := m }).mIndex.find k
        = (l.foldl (ComposeStep width) st).mIndex.find k ∧
      ((l.foldl (ComposeStep width) { st with mIndex := m }).mIndex.find k).isSome = true) := by
  induction l generalizing st m with
  | nil => simp
  | cons g l ih =>
    simp only [List.foldl_cons, List.map_cons, List.mem_cons, not_or]
    rw [ComposeStep_with_index]
    obtain ⟨h1, h2, h3, h4⟩ := ih (ComposeStep width st g)
      (Index.assign m (.leaf g.addr)
          (.row (ComposeStep width st g).row.addr, (ComposeStep width st g).row.children - 1,
            st.i, (ComposeStep width st g).columnChildren - 1))
    refine ⟨h1, h2, ?_, ?_⟩
    · rintro ⟨hk, hl⟩
      rw [h3 hl, Index_find_assign, if_neg (fun h => hk h.symm)]
    · intro hk
      by_cases hl : k ∈ l.map (fun g => GlyphPtr.leaf g.addr)
      · exact h4 hl
      · have hkg : k = GlyphPtr.leaf g.addr := by
          rcases hk with hk | hk
          · exact hk
          · exact absurd hk hl
        subst hkg
        obtain ⟨_, _, h3', _⟩ := ih (ComposeStep width st g) (ComposeStep width st g).mIndex
        have hself : ({ ComposeStep width st g with
            mIndex := (ComposeStep width st g).mIndex } : ComposeLoop)
            = ComposeStep width st g := rfl
        rw [hself] at h3'
        rw [h3 hl, h3' hl, Index_find_assign, if_pos rfl]
        have := ComposeStep_with_index width st g st.mIndex
        have hst : ({ st with mIndex := st.mIndex } : ComposeLoop) = st := rfl
        rw [hst] at this
        rw [this]
        simp [Index_find_assign]
        rfl

/-- Under the reading that Add returns the child it has just added: the body
of Compose run a second time, with the source sequence and the target width as
they were, gives the same rows as the first run, and every key of the index
has the same offsets as after the first run. The committed Compose does not
complete one run (ComposeCommitted). -/
theorem Compose_twice_same_rows_and_offsets (wc : WrapCompositor) :
    (Compose (Compose wc)).partition = (Compose wc).partition ∧
    ∀ k, ((Compose (Compose wc)).mIndex.find k).map (fun e => e.2)
      = ((Compose wc).mIndex.find k).map (fun e => e.2) := by
  refine ⟨?_, fun k => ?_⟩
  · have h := Compose_fold_index wc.mComposition.Bounds.x wc.mComposition.mGlyphs
      { row := { addr := 0 }, rest := [], mIndex := wc.mIndex, i := 0 }
      (Compose wc).mIndex (.leaf 0)
    simp only [WrapCompositor.partition, WrapCompositor.rows, Compose] at h ⊢
    rw [h.1, h.2.1]
  · have h := Compose_fold_index wc.mComposition.Bounds.x wc.mComposition.mGlyphs
      { row := { addr := 0 }, rest := [], mIndex := wc.mIndex, i := 0 }
      (Compose wc).mIndex k
    have hfind : (Compose (Compose wc)).mIndex.find k = (Compose wc).mIndex.find k := by
      by_cases hk : k ∈ wc.mComposition.mGlyphs.map (fun g => GlyphPtr.leaf g.addr)
      · exact (h.2.2.2 hk).1
      · exact h.2.2.1 hk
    rw [hfind]

/-- Under the reading that Add returns the child it has just added: the body
of Compose removes no index entry; a key has an entry afterwards exactly when
it had one before or is a glyph of the current source sequence, and a key that
is no glyph of the current source sequence keeps what it had. The committed
Compose ends before it writes any entry (ComposeCommitted). -/
theorem Compose_keeps_index_keys (wc : WrapCompositor) (k : GlyphPtr) :
    ((Compose wc).mIndex.find k).isSome =
      ((wc.mIndex.find k).isSome ||
        decide (k ∈ wc.mComposition.mGlyphs.map (fun g => GlyphPtr.leaf g.addr))) ∧
    (k ∈ wc.mComposition.mGlyphs.map (fun g => GlyphPtr.leaf g.addr) ∨
      (Compose wc).mIndex.find k = wc.mIndex.find k) := by
  have h := Compose_fold_index wc.mComposition.Bounds.x wc.mComposition.mGlyphs
      { row := { addr := 0 }, rest := [], mIndex := wc.mIndex, i := 0 } wc.mIndex k
  by_cases hk : k ∈ wc.mComposition.mGlyphs.map (fun g => GlyphPtr.leaf g.addr)
  · refine ⟨?_, Or.inl hk⟩
    have := (h.2.2.2 hk).2
    simp only [Compose]
    rw [this]
    simp [hk]
  · have := h.2.2.1 hk
    refine ⟨?_, Or.inr this⟩
    simp only [Compose]
    rw [this]
    simp [hk]

/-! ## Compose as committed -/

/-- C3 (the code departs from the claim). Compose as committed on four leaves
of width 40 with target width 100 reaches no state whose rows hold the source
sequence. It ends on line 71 in the missing return of Add; the tree is then a
column with one empty row, so the rows read top to bottom give no leaf, while
the source sequence has four. -/
theorem ComposeCommitted_rows_hold_no_leaf :
    ComposeCommitted (WrapCompositor.fresh fourLeaves 100) =
      .error (.missingReturn, ComposeCommitted.atFault (WrapCompositor.fresh fourLeaves 100)) ∧
    (ComposeCommitted.atFault (WrapCompositor.fresh fourLeaves 100)).partition = [[]] ∧
    (ComposeCommitted.atFault (WrapCompositor.fresh fourLeaves 100)).flatten = [] ∧
    (ComposeCommitted.atFault (WrapCompositor.fresh fourLeaves 100)).mComposition.mGlyphs
      = fourLeaves := by
  refine ⟨rfl, by decide, by decide, rfl⟩

/-- C14 (the code departs from the claim). Compose as committed on two leaves
of width 40 with target width 100 does not complete one run: it ends on line
71 in the missing return of Add, with no leaf in any row and no index entry
written. A second run after it is never reached: the two calls in a row end
in the fault of the first. -/
theorem ComposeCommitted_no_first_run :
    ComposeCommitted (WrapCompositor.fresh twoLeaves 100) =
      .error (.missingReturn, ComposeCommitted.atFault (WrapCompositor.fresh twoLeaves 100)) ∧
    (ComposeCommitted (WrapCompositor.fresh twoLeaves 100) >>= ComposeCommitted) =
      .error (.missingReturn, ComposeCommitted.atFault (WrapCompositor.fresh twoLeaves 100)) ∧
    (ComposeCommitted.atFault (WrapCompositor.fresh twoLeaves 100)).partition = [[]] ∧
    (ComposeCommitted.atFault (WrapCompositor.fresh twoLeaves 100)).mIndex = [] := by
  refine ⟨rfl, rfl, by decide, rfl⟩

/-- C19 (the code departs from the claim). In staleIndex the index holds an
entry for the leaf 100 and the source sequence is the single leaf 101. Compose
as committed ends on line 71, before line 88 writes any entry: the index is as
it was, so the leaf 101 of the current source sequence has no entry, and the
keys of the index are not the old keys together with the leaves of the source
sequence. -/
theorem ComposeCommitted_writes_no_entry :
    staleIndex.mComposition.mGlyphs = [mkGlyph 101 40] ∧
    ComposeCommitted staleIndex = .error (.missingReturn, ComposeCommitted.atFault staleIndex) ∧
    (ComposeCommitted.atFault staleIndex).mIndex = staleIndex.mIndex ∧
    (ComposeCommitted.atFault staleIndex).mIndex.find (.leaf 100) = some (.row 0, 0, 0, 0) ∧
    (ComposeCommitted.atFault staleIndex).mIndex.find (.leaf 101) = none := by
  refine ⟨rfl, rfl, rfl, rfl, rfl⟩

/-! ## RowGlyph -/

/-- An addition whose exact result is in the range of int gives that result. -/
theorem intWrap_of_inIntRange (i : Int) (h : inIntRange i) : intWrap i = i := by
  unfold intWrap
  unfold inIntRange at h
  norm_num at h ⊢
  omega

/-- The positions the loop of lines 188-191 hands out when no addition of
line 190 leaves the range of int: child i gets the start position moved right
by the widths of the children before it. -/
theorem RowGlyph_placeLoop_eq (pos : Vec2) (gs : List GlyphDecoratorNonOwner)
    (hfit : ∀ i, i ≤ gs.length →
      inIntRange (pos.x + ((gs.take i).map (fun g => g.Bounds.x)).sum)) :
    RowGlyph.placeLoop pos gs =
      (List.range gs.length).map
        (fun i => ({ x := pos.x + ((gs.take i).map (fun g => g.Bounds.x)).sum,
                     y := pos.y } : Vec2)) := by
  induction gs generalizing pos with
  | nil => rfl
  | cons g gs ih =>
    have h1 : inIntRange (pos.x + g.Bounds.x) := by
      have := hfit 1 (by simp)
      simpa using this
    have hrest : ∀ i, i ≤ gs.length →
        inIntRange (({ pos with x := pos.x + g.Bounds.x } : Vec2).x
          + ((gs.take i).map (fun g => g.Bounds.x)).sum) := by
      intro i hi
      have := hfit (i + 1) (by simp; omega)
      simpa [add_assoc] using this
    rw [RowGlyph.placeLoop, intWrap_of_inIntRange _ h1, ih _ hrest, List.length_cons,
      List.range_succ_eq_map]
    simp only [List.map_cons, List.take_zero, List.map_nil, List.sum_nil, add_zero, List.map_map]
    congr 1
    apply List.map_congr_left
    intro i _
    simp [add_assoc]

/-- C15 (the code departs from the claim). A row at (0, 0) with gap 0 and
three children, each 10 wide and 5 high, is given the width 100; the widths
add up to 30, so all three fit. SetWidth places the children at (0, 0), (0, 0)
and (0, 5): every child is put at the left x of the row, because the test of
line 203 holds for every child of non-zero width. On one line at the running
x, as SetPosition places them, they would be at (0, 0), (10, 0), (20, 0). -/
theorem RowGlyph_SetWidth_line_per_child :
    threeSmall.mPosition = ⟨0, 0⟩ ∧ threeSmall.childWidth = 30 ∧
    (threeSmall.SetWidth (some 100)).2 = [⟨0, 0⟩, ⟨0, 0⟩, ⟨0, 5⟩] ∧
    (threeSmall.SetPosition ⟨0, 0⟩).2 = [⟨0, 0⟩, ⟨10, 0⟩, ⟨20, 0⟩] := by
  refine ⟨rfl, by decide, by decide, by decide⟩

/-- C16 as amended. For every row and every position such that no addition
of line 190 leaves the range of int (the position's x plus the widths of the
first i children is in that range for every i up to the number of children),
SetPosition stores the position in the row, leaves the children as they are,
and calls SetPosition on child i with x moved right by the sum of the widths
of the children before it and with the y of the row: every child gets the
same y. -/
theorem RowGlyph_SetPosition_children (r : RowGlyph) (position : Vec2)
    (hfit : ∀ i, i ≤ r.children →
      inIntRange (position.x + ((r.mGlyphs.take i).map (fun g => g.Bounds.x)).sum)) :
    (r.SetPosition position).1.mPosition = position ∧
    (r.SetPosition position).1.mGlyphs = r.mGlyphs ∧
    (r.SetPosition position).2 =
      (List.range r.children).map
        (fun i => ({ x := position.x + ((r.mGlyphs.take i).map (fun g => g.Bounds.x)).sum,
                     y := position.y } : Vec2)) :=
  ⟨rfl, rfl, RowGlyph_placeLoop_eq position r.mGlyphs hfit⟩

/-- C16 as amended, at the row threeSmall (three children 10 wide) and the
position (3, 4): the children are placed at (3, 4), (13, 4) and (23, 4). -/
theorem RowGlyph_SetPosition_children_witness :
    (∀ i, i ≤ threeSmall.children →
      inIntRange ((3 : Int) + ((threeSmall.mGlyphs.take i).map (fun g => g.Bounds.x)).sum)) ∧
    (threeSmall.SetPosition ⟨3, 4⟩).1.mPosition = ⟨3, 4⟩ ∧
    (threeSmall.SetPosition ⟨3, 4⟩).1.mGlyphs = threeSmall.mGlyphs ∧
    (threeSmall.SetPosition ⟨3, 4⟩).2 =
      (List.range threeSmall.children).map
        (fun i => ({ x := (3 : Int) + ((threeSmall.mGlyphs.take i).map (fun g => g.Bounds.x)).sum,
                     y := 4 } : Vec2)) ∧
    (threeSmall.SetPosition ⟨3, 4⟩).2 = [⟨3, 4⟩, ⟨13, 4⟩, ⟨23, 4⟩] :=
  ⟨by decide, (RowGlyph_SetPosition_children threeSmall ⟨3, 4⟩ (by decide)).1,
    (RowGlyph_SetPosition_children threeSmall ⟨3, 4⟩ (by decide)).2.1,
    (RowGlyph_SetPosition_children threeSmall ⟨3, 4⟩ (by decide)).2.2, by decide⟩

/-- C16 as stated fails. A row with two children 10 wide is placed at
(2147483647, 0), the largest x an int holds. The claim gives the second child
x = 2147483647 + 10 = 2147483657; the addition of line 190 leaves the range of
int and the child is given x = -2147483639. -/
theorem RowGlyph_SetPosition_overflow :
    (twoAtEdge.SetPosition ⟨2147483647, 0⟩).2 = [⟨2147483647, 0⟩, ⟨-2147483639, 0⟩] ∧
    (2147483647 : Int) + ((twoAtEdge.mGlyphs.take 1).map (fun g => g.Bounds.x)).sum
      = 2147483657 := by
  constructor <;> decide

/-! ## ColumnGlyph -/

/-- A size_t below 2^31 is stored in an int unchanged. -/
theorem toInt_of_lt (h : Nat) (hh : h < 2 ^ 31) : toInt h = (h : Int) := by
  unfold toInt
  have : (h : Int) < 2 ^ 31 := by exact_mod_cast hh
  norm_num at this ⊢
  omega

/-- An int from 0 up to 2^31 - 1 is converted to size_t unchanged. -/
theorem toSizeT_natCast (h : Nat) (hh : h < 2 ^ 31) : toSizeT (h : Int) = h := by
  unfold toSizeT
  have : (h : Int) < 2 ^ 31 := by exact_mod_cast hh
  norm_num at this ⊢
  omega

/-- C17 as amended. For every column with at least one child and every height
h below 2^31, SetHeight(h) stores h as the y of the bounds of the column and
gives every child the budget h / n, rounded down, n being the number of
children; SetHeight(none) gives none to every child and leaves the column as
it is. -/
theorem ColumnGlyph_SetHeight_budget (c : ColumnGlyph) (h : Nat)
    (hn : 0 < c.children) (hh : h < 2 ^ 31) :
    c.SetHeight (some h) =
      .ok ({ c with mBounds := { c.mBounds with y := (h : Int) } },
        List.replicate c.children (some (h / c.children))) ∧
    c.SetHeight none = .ok (c, List.replicate c.children none) := by
  have hc : c.children ≠ 0 := Nat.pos_iff_ne_zero.mp hn
  constructor
  · simp only [ColumnGlyph.SetHeight, ColumnGlyph.children] at hc ⊢
    rw [if_neg hc, toInt_of_lt h hh, toSizeT_natCast h hh]
    simp [ColumnGlyph.compositeSetHeight, List.map_const']
  · simp [ColumnGlyph.SetHeight, ColumnGlyph.compositeSetHeight, ColumnGlyph.children,
      List.map_const']

/-- C17 as amended, at a column of three rows and the height 10: every row
gets the budget 3. -/
theorem ColumnGlyph_SetHeight_budget_witness :
    (0 < threeRowColumn.children ∧ (10 : Nat) < 2 ^ 31) ∧
    threeRowColumn.SetHeight (some 10) =
      .ok ({ threeRowColumn with
              mBounds := { threeRowColumn.mBounds with y := ((10 : Nat) : Int) } },
        List.replicate threeRowColumn.children (some (10 / threeRowColumn.children))) ∧
    threeRowColumn.SetHeight none =
      .ok (threeRowColumn, List.replicate threeRowColumn.children none) :=
  ⟨⟨by decide, by norm_num⟩,
    ColumnGlyph_SetHeight_budget threeRowColumn 10 (by decide) (by norm_num)⟩

/-- C17 as stated fails. A column with one child is given the height 2^31.
The int mBounds.y cannot hold it: the column records -2147483648, and the
division of line 249, made in size_t, hands the child 18446744071562067968,
while the height divided by the number of children is 2147483648. -/
theorem ColumnGlyph_SetHeight_large_height :
    oneRowColumn.SetHeight (some (2 ^ 31)) =
      .ok ({ oneRowColumn with mBounds := ⟨0, -2147483648⟩ }, [some 18446744071562067968]) ∧
    (2 : Nat) ^ 31 / oneRowColumn.children = 2147483648 := by
  constructor
  · rfl
  · decide

/-- C20. For every column and every present height h, SetHeight(h) ends in the
division by zero of line 249 exactly when the column has no child, and it
returns exactly when the column has at least one child. -/
theorem ColumnGlyph_SetHeight_division (c : ColumnGlyph) (h : Nat) :
    (c.SetHeight (some h) = .error .divisionByZero ↔ c.children = 0) ∧
    ((∃ r, c.SetHeight (some h) = .ok r) ↔ c.children ≠ 0) := by
  by_cases hc : c.children = 0
  · simp only [ColumnGlyph.SetHeight, ColumnGlyph.children] at hc ⊢
    simp [hc]
  · simp only [ColumnGlyph.SetHeight, ColumnGlyph.children] at hc ⊢
    simp [hc]

/-! ## poly_const_iterator -/

/-- C12 as amended. For every two cursors whose concrete iterator types
differ, operator== returns false and operator!= returns true; neither raises
an error. -/
theorem poly_const_iterator_types_differ (a b : poly_const_iterator.model)
    (h : a.type ≠ b.type) :
    poly_const_iterator.operatorEq ⟨some a⟩ ⟨some b⟩ = .ok false ∧
    poly_const_iterator.operatorNe ⟨some a⟩ ⟨some b⟩ = .ok true := by
  simp [poly_const_iterator.operatorEq, poly_const_iterator.operatorNe, Except.map, h]

/-- C12 as amended, at cursors of the types 2 and 3. -/
theorem poly_const_iterator_types_differ_witness :
    (2 : Nat) ≠ 3 ∧
    poly_const_iterator.operatorEq ⟨some ⟨2, 5⟩⟩ ⟨some ⟨3, 9⟩⟩ = .ok false ∧
    poly_const_iterator.operatorNe ⟨some ⟨2, 5⟩⟩ ⟨some ⟨3, 9⟩⟩ = .ok true :=
  ⟨by decide, poly_const_iterator_types_differ ⟨2, 5⟩ ⟨3, 9⟩ (by decide)⟩

/-- C12 as stated fails. Two cursors of different concrete iterator types at
the same position: operator== returns the boolean false and operator!= the
boolean true. No usage error is raised. -/
theorem poly_const_iterator_no_usage_error :
    vectorCursor.operatorEq otherCursor = .ok false ∧
    vectorCursor.operatorNe otherCursor = .ok true := ⟨rfl, rfl⟩

/-! ## ElementRemoved: the state at the fault -/

/-- The row loop that keeps the row at the fault ends in the same fault as
removeLoop and returns the same row. -/
theorem removeLoopAt_fault (n it : Nat) (r : RowGlyph) :
    (ElementRemoved.removeLoopAt n it r).mapError Prod.fst
      = ElementRemoved.removeLoop n it r := by
  induction n generalizing it r with
  | zero => rfl
  | succ n ih =>
    rw [ElementRemoved.removeLoopAt, ElementRemoved.removeLoop]
    cases h : r.Remove it with
    | error f => simp [bind, Except.bind, Except.mapError]
    | ok r1 => simpa [bind, Except.bind] using ih (it + 1) r1

/-- The index loop that keeps the index at the fault ends in the same fault
as eraseLoop and returns the same index. -/
theorem eraseLoopAt_fault (c : Composition) (n it : Nat) (m : Index) :
    (ElementRemoved.eraseLoopAt c n it m).mapError Prod.fst
      = ElementRemoved.eraseLoop c n it m := by
  induction n generalizing it m with
  | zero => rfl
  | succ n ih =>
    rw [ElementRemoved.eraseLoopAt, ElementRemoved.eraseLoop]
    cases h : c.RawGlyphAt it with
    | error f => simp [bind, Except.bind, Except.mapError]
    | ok g =>
      simp only [bind, Except.bind]
      cases h2 : m.eraseFound (.leaf g.addr) with
      | error f => simp [Except.mapError]
      | ok m1 => simpa using ih (it + 1) m1

/-- The while loop that keeps the compositor at the fault ends in the same
fault as whileLoop and returns the same result. -/
theorem whileLoopAt_fault (begin end_ amountToDelete fuel : Nat) (wc : WrapCompositor)
    (beginT eraseRowEnd : Nat) :
    (ElementRemoved.whileLoopAt begin end_ amountToDelete fuel wc beginT eraseRowEnd).mapError
        Prod.fst
      = ElementRemoved.whileLoop begin end_ amountToDelete fuel wc beginT eraseRowEnd := by
  induction fuel generalizing wc beginT eraseRowEnd with
  | zero =>
    simp only [ElementRemoved.whileLoopAt, ElementRemoved.whileLoop]
    split_ifs <;> rfl
  | succ fuel ih =>
    rw [ElementRemoved.whileLoopAt, ElementRemoved.whileLoop]
    by_cases hbe : beginT = end_
    · simp [hbe, Except.mapError]
    · simp only [hbe, if_false]
      cases h1 : wc.mComposition.RawGlyphAt begin with
      | error f => simp [faultAt, bind, Except.bind, Except.mapError]
      | ok g =>
        simp only [faultAt, bind, Except.bind]
        rcases hs : wc.mIndex.subscript (.leaf g.addr) with ⟨⟨row, rowindex, x1, x2⟩, m⟩
        simp only []
        cases h2 : WrapCompositor.deref { wc with mIndex := m } row with
        | error f => simp [Except.mapError]
        | ok r =>
          simp only []
          by_cases hgt : r.children > amountToDelete
          · simp only [hgt, if_true]
            by_cases hlt : r.children < rowindex
            · simp [hlt, throw, throwThe, MonadExceptOf.throw, Except.mapError, bind,
                Except.bind]
            · simp only [hlt, if_false]
              have hl := removeLoopAt_fault (r.children - rowindex) rowindex r
              cases h3 : ElementRemoved.removeLoopAt (r.children - rowindex) rowindex r with
              | error e =>
                obtain ⟨f, r1⟩ := e
                rw [h3] at hl
                simp only [Except.mapError] at hl
                simp [← hl, throw, throwThe, MonadExceptOf.throw, Except.mapError, bind,
                  Except.bind, pure, Except.pure]
              | ok r1 =>
                rw [h3] at hl
                simp only [Except.mapError] at hl
                simp only [← hl, pure, Except.pure, bind, Except.bind]
                by_cases hlt2 : end_ < beginT
                · simp [hlt2, Except.mapError]
                · simp only [hlt2, if_false]
                  split
                  · rename_i f m1 heq
                    have he := eraseLoopAt_fault _ _ _ _ ▸
                      congrArg (Except.mapError Prod.fst) heq
                    simp only [Except.mapError] at he
                    simp [he, throw, throwThe, MonadExceptOf.throw, Except.mapError]
                  · rename_i m1 heq
                    have he := eraseLoopAt_fault _ _ _ _ ▸
                      congrArg (Except.mapError Prod.fst) heq
                    simp only [Except.mapError] at he
                    simp only [he]
                    split
                    · rename_i f hd
                      split at hd
                      · cases hd
                      · rename_i f2 hd2
                        cases hd
                        simp [hd2, Except.mapError]
                    · rename_i v hd
                      split at hd
                      · rename_i a hd2
                        cases hd
                        simp only [hd2]
                        exact ih _ _ _
                      · cases hd
          · simp only [hgt, if_false, pure, Except.pure, bind, Except.bind]
            by_cases hlt2 : end_ < beginT
            · simp [hlt2, Except.mapError]
            · simp only [hlt2, if_false]
              split
              · rename_i f m1 heq
                have he := eraseLoopAt_fault _ _ _ _ ▸
                  congrArg (Except.mapError Prod.fst) heq
                simp only [Except.mapError] at he
                simp [he, throw, throwThe, MonadExceptOf.throw, Except.mapError]
              · rename_i m1 heq
                have he := eraseLoopAt_fault _ _ _ _ ▸
                  congrArg (Except.mapError Prod.fst) heq
                simp only [Except.mapError] at he
                simp only [he]
                split
                · rename_i f hd
                  split at hd
                  · cases hd
                  · rename_i f2 hd2
                    cases hd
                    simp [hd2, Except.mapError]
                · rename_i v hd
                  split at hd
                  · rename_i a hd2
                    cases hd
                    simp only [hd2]
                    exact ih _ _ _
                  · cases hd

/-- ElementRemovedAt is ElementRemoved with the state kept at the fault: it
returns what ElementRemoved returns and ends in the fault ElementRemoved ends
in. -/
theorem ElementRemovedAt_fault (fuel : Nat) (wc : WrapCompositor) (begin end_ : Nat) :
    (ElementRemovedAt fuel wc begin end_).mapError Prod.fst
      = ElementRemoved fuel wc begin end_ := by
  rw [ElementRemovedAt, ElementRemoved]
  cases h1 : wc.mComposition.RawGlyphAt begin with
  | error f => simp [faultAt, bind, Except.bind, Except.mapError]
  | ok g =>
    simp only [faultAt, bind, Except.bind]
    rcases hs : wc.mIndex.subscript (.leaf g.addr) with ⟨⟨row, rowindex, x1, x2⟩, m⟩
    simp only []
    have hw := whileLoopAt_fault begin end_
      (((end_ : Int) - (begin : Int)) % (2 ^ 64 : Int)).toNat fuel { wc with mIndex := m }
      begin x2
    cases h2 : ElementRemoved.whileLoopAt begin end_
      (((end_ : Int) - (begin : Int)) % (2 ^ 64 : Int)).toNat fuel { wc with mIndex := m }
      begin x2 with
    | error e =>
      rw [h2] at hw
      simp only [Except.mapError] at hw
      rw [← hw]
      simp [Except.mapError]
    | ok p =>
      obtain ⟨w, e⟩ := p
      rw [h2] at hw
      simp only [Except.mapError] at hw
      rw [← hw]
      simp only []
      cases h3 : w.mComposition.mSelfGlyph with
      | none => simp [throw, throwThe, MonadExceptOf.throw, Except.mapError]
      | some column =>
        simp only []
        cases h4 : column.RemoveRange x2 e with
        | error f => simp [Except.mapError]
        | ok c2 =>
          simp only []
          by_cases hc : c2.children = e
          · simp [hc, Except.mapError, pure, Except.pure]
          · simp only [hc, ne_eq, not_false_eq_true, if_true]
            split <;>
              simp [throw, throwThe, MonadExceptOf.throw, Except.mapError, pure, Except.pure]

/-! ## ElementRemoved on a range with an untracked leaf -/

/-- Erasing a key does not give an entry to a key that had none. -/
theorem Index_find_erase_none (m : Index) (k k' : GlyphPtr) (h : m.find k' = none) :
    (m.erase k).find k' = none := by
  induction m with
  | nil => rfl
  | cons e rest ih =>
    obtain ⟨ke, ve⟩ := e
    simp only [Index.find] at h
    by_cases hk : ke = k'
    · simp [hk] at h
    · simp only [hk, if_false] at h
      simp only [Index.erase, List.filter_cons]
      by_cases hke : ke = k
      · simpa [hke, Index.erase] using ih h
      · simp only [ne_eq, hke, not_false_eq_true, decide_True, if_true, Index.find, hk, if_false]
        simpa [Index.erase] using ih h

/-- The only fault of a subscript of RawGlyphs is the out-of-range access. -/
theorem RawGlyphAt_error (c : Composition) (i : Int) (f : Fault)
    (h : c.RawGlyphAt i = .error f) : f = .outOfRange := by
  unfold Composition.RawGlyphAt at h
  split_ifs at h
  · cases h; rfl
  · split at h
    · cases h
    · cases h; rfl

/-- The only fault of the dereference of a row pointer is the bad pointer. -/
theorem deref_error (wc : WrapCompositor) (p : RowPtr) (f : Fault)
    (h : wc.deref p = .error f) : f = .badPointer := by
  unfold WrapCompositor.deref at h
  split at h
  · split at h
    · cases h
    · cases h; rfl
  · cases h; rfl

/-- The only fault of the loop of lines 159-161 is the erase outside the row. -/
theorem removeLoop_error (n it : Nat) (r : RowGlyph) (f : Fault)
    (h : ElementRemoved.removeLoop n it r = .error f) : f = .outOfRange := by
  induction n generalizing it r with
  | zero => cases h
  | succ n ih =>
    rw [ElementRemoved.removeLoop] at h
    cases hr : r.Remove it with
    | error f' =>
      rw [hr] at h
      simp only [bind, Except.bind] at h
      cases h
      unfold RowGlyph.Remove at hr
      split_ifs at hr
      cases hr; rfl
    | ok r1 =>
      rw [hr] at h
      exact ih _ _ h

/-- The loop of lines 168-170 over offsets that include a glyph with no index
entry ends in a fault: at that glyph at the latest, find returns the end
iterator and line 169 erases it. -/
theorem eraseLoop_untracked (c : Composition) (n it : Nat) (m : Index) (j : Nat) (g : Glyph)
    (h1 : it ≤ j) (h2 : j < it + n) (hg : c.RawGlyphAt j = .ok g)
    (hu : m.find (.leaf g.addr) = none) :
    ElementRemoved.eraseLoop c n it m = .error .outOfRange ∨
    ElementRemoved.eraseLoop c n it m = .error .eraseEnd := by
  induction n generalizing it m with
  | zero => omega
  | succ n ih =>
    rw [ElementRemoved.eraseLoop]
    cases h : c.RawGlyphAt it with
    | error f =>
      left
      rw [RawGlyphAt_error c it f h]
      rfl
    | ok g0 =>
      simp only [bind, Except.bind]
      cases he : m.find (.leaf g0.addr) with
      | none =>
        right
        simp [Index.eraseFound, he]
      | some v =>
        simp only [Index.eraseFound, he]
        have hne : it ≠ j := by
          intro hij
          subst hij
          rw [hg] at h
          cases h
          rw [hu] at he
          cases he
        exact ih (it + 1) (m.erase (.leaf g0.addr)) (by omega) (by omega)
          (Index_find_erase_none m _ _ hu)

/-- A write through a row pointer leaves the source sequence as it is. -/
theorem store_RawGlyphAt (wc : WrapCompositor) (r : RowGlyph) (i : Int) :
    (wc.store r).mComposition.RawGlyphAt i = wc.mComposition.RawGlyphAt i := by
  unfold WrapCompositor.store
  split <;> rfl

/-- A write through a row pointer leaves the index as it is. -/
theorem store_mIndex (wc : WrapCompositor) (r : RowGlyph) :
    (wc.store r).mIndex = wc.mIndex := by
  unfold WrapCompositor.store
  split <;> rfl

/-- The first pass of the while loop of lines 151-173 on a range that holds a
glyph with no index entry ends in a fault, when the entry of the first glyph
of the range has a null row or the glyph without entry has none in the index
the loop starts from. -/
theorem whileLoop_untracked (fuel : Nat) (wc : WrapCompositor) (begin end_ amount e j : Nat)
    (g : Glyph) (hb : begin ≤ j) (he : j < end_)
    (hg : wc.mComposition.RawGlyphAt j = .ok g)
    (hidx : (∀ g0, wc.mComposition.RawGlyphAt begin = .ok g0 →
              ∃ x y z, wc.mIndex.find (.leaf g0.addr) = some (.null, x, y, z)) ∨
            wc.mIndex.find (.leaf g.addr) = none) :
    ElementRemoved.whileLoop begin end_ amount (fuel + 1) wc begin e = .error .outOfRange ∨
    ElementRemoved.whileLoop begin end_ amount (fuel + 1) wc begin e = .error .badPointer ∨
    ElementRemoved.whileLoop begin end_ amount (fuel + 1) wc begin e = .error .eraseEnd := by
  have hbe : begin ≠ end_ := by omega
  have hnlt : ¬ end_ < begin := by omega
  rw [ElementRemoved.whileLoop]
  simp only [hbe, if_false]
  cases h1 : wc.mComposition.RawGlyphAt begin with
  | error f =>
    left
    rw [RawGlyphAt_error _ _ f h1]
    rfl
  | ok g0 =>
    simp only [bind, Except.bind]
    cases hf : wc.mIndex.find (.leaf g0.addr) with
    | none =>
      right; left
      simp [Index.subscript, hf, WrapCompositor.deref]
    | some v =>
      obtain ⟨row, rowindex, x1, x2⟩ := v
      simp only [Index.subscript, hf]
      have hwc : ({ wc with mIndex := wc.mIndex } : WrapCompositor) = wc := rfl
      simp only [hwc]
      cases h2 : wc.deref row with
      | error f =>
        right; left
        rw [deref_error _ _ f h2]
      | ok r =>
        simp only []
        have hu : wc.mIndex.find (.leaf g.addr) = none := by
          rcases hidx with hA | hB
          · obtain ⟨x, y, z, hx⟩ := hA g0 h1
            rw [hf] at hx
            cases hx
            simp [WrapCompositor.deref] at h2
          · exact hB
        by_cases hgt : r.children > amount
        · simp only [hgt, if_true]
          by_cases hlt : r.children < rowindex
          · left
            simp [hlt, throw, throwThe, MonadExceptOf.throw, bind, Except.bind]
          · simp only [hlt, if_false]
            cases h3 : ElementRemoved.removeLoop (r.children - rowindex) rowindex r with
            | error f =>
              left
              rw [removeLoop_error _ _ _ f h3]
              rfl
            | ok r1 =>
              simp only [pure, Except.pure, bind, Except.bind, hnlt, if_false]
              rcases eraseLoop_untracked (wc.store r1).mComposition (end_ - begin) begin
                (wc.store r1).mIndex j g hb (by omega) (by rw [store_RawGlyphAt]; exact hg)
                (by rw [store_mIndex]; exact hu) with h | h
              · left; simp only [h]
              · right; right; simp only [h]
        · simp only [hgt, if_false, pure, Except.pure, bind, Except.bind, hnlt]
          rcases eraseLoop_untracked wc.mComposition (end_ - begin) begin
            wc.mIndex j g hb (by omega) hg hu with h | h
          · left; simp only [h]
          · right; right; simp only [h]

/-! ## Untracked leaves, recursion and consistency -/

/-- The entry `mIndex[k]` inserts for an absent key is found afterwards. -/
theorem Index_find_append_absent (m : Index) (k : GlyphPtr) (v : IndexEntry)
    (h : m.find k = none) : Index.find (m ++ [(k, v)]) k = some v := by
  induction m with
  | nil => simp [Index.find]
  | cons e rest ih =>
    obtain ⟨ke, ve⟩ := e
    simp only [Index.find] at h
    by_cases hk : ke = k
    · simp [hk] at h
    · simp only [hk, if_false] at h
      simp [Index.find, hk, ih h]

/-- ElementRemoved on a range that holds a glyph with no index entry ends in
one of the faults of undefined behaviour, for every budget of at least one
pass. -/
theorem ElementRemoved_untracked_fault (fuel : Nat) (wc : WrapCompositor)
    (begin end_ j : Nat) (g : Glyph) (hb : begin ≤ j) (he : j < end_)
    (hg : wc.mComposition.RawGlyphAt j = .ok g)
    (hu : wc.mIndex.find (.leaf g.addr) = none) :
    ElementRemoved (fuel + 1) wc begin end_ = .error .outOfRange ∨
    ElementRemoved (fuel + 1) wc begin end_ = .error .badPointer ∨
    ElementRemoved (fuel + 1) wc begin end_ = .error .eraseEnd := by
  rw [ElementRemoved]
  cases h1 : wc.mComposition.RawGlyphAt begin with
  | error f =>
    left
    rw [RawGlyphAt_error _ _ f h1]
    rfl
  | ok g0 =>
    simp only [bind, Except.bind]
    have hw : ∀ (m : Index) (x2 : Nat),
        ((∃ x y z, m.find (.leaf g0.addr) = some (.null, x, y, z)) ∨
          m.find (.leaf g.addr) = none) →
        ElementRemoved.whileLoop begin end_
            (((end_ : Int) - (begin : Int)) % (2 ^ 64 : Int)).toNat (fuel + 1)
            { wc with mIndex := m } begin x2 = .error .outOfRange ∨
        ElementRemoved.whileLoop begin end_
            (((end_ : Int) - (begin : Int)) % (2 ^ 64 : Int)).toNat (fuel + 1)
            { wc with mIndex := m } begin x2 = .error .badPointer ∨
        ElementRemoved.whileLoop begin end_
            (((end_ : Int) - (begin : Int)) % (2 ^ 64 : Int)).toNat (fuel + 1)
            { wc with mIndex := m } begin x2 = .error .eraseEnd := by
      intro m x2 hm
      apply whileLoop_untracked fuel { wc with mIndex := m } begin end_ _ x2 j g hb he hg
      rcases hm with hA | hB
      · left
        intro g0' hg0'
        have : g0' = g0 := by
          have h1' : wc.mComposition.RawGlyphAt begin = .ok g0' := hg0'
          rw [h1] at h1'
          cases h1'
          rfl
        rw [this]
        exact hA
      · right
        exact hB
    cases hf : wc.mIndex.find (.leaf g0.addr) with
    | none =>
      simp only [Index.subscript, hf]
      rcases hw (wc.mIndex ++ [(.leaf g0.addr, (.null, 0, 0, 0))]) 0
        (Or.inl ⟨0, 0, 0, Index_find_append_absent _ _ _ hf⟩) with h | h | h
      · left; rw [h]
      · right; left; rw [h]
      · right; right; rw [h]
    | some v =>
      obtain ⟨row, rowindex, x1, x2⟩ := v
      simp only [Index.subscript, hf]
      rcases hw wc.mIndex x2 (Or.inr hu) with h | h | h
      · left; rw [h]
      · right; left; rw [h]
      · right; right; rw [h]

/-- C11 as amended. For every state, every range of source offsets that holds
a glyph with no index entry, and every loop budget of at least one pass:
ElementRemoved reports no lookup failure and does not return; it ends in
undefined behaviour, which is an out-of-range access, the dereference of a
null or dangling row pointer, or the erase of the end iterator of the index.
The index is not always left as it was: when the glyph without entry is the
first of the range, the call ends on line 153 with the index holding a new
value-initialised entry (null row, 0, 0, 0) for that glyph, inserted by the
lookup of line 148. -/
theorem ElementRemoved_untracked_leaf (fuel : Nat) (wc : WrapCompositor)
    (begin end_ j : Nat) (g : Glyph) (hb : begin ≤ j) (he : j < end_)
    (hg : wc.mComposition.RawGlyphAt j = .ok g)
    (hu : wc.mIndex.find (.leaf g.addr) = none) :
    (∃ f s, ElementRemovedAt (fuel + 1) wc begin end_ = .error (f, s) ∧
      (f = .outOfRange ∨ f = .badPointer ∨ f = .eraseEnd)) ∧
    (j = begin → ElementRemovedAt (fuel + 1) wc begin end_ =
      .error (.badPointer,
        { wc with mIndex := wc.mIndex ++ [(.leaf g.addr, (.null, 0, 0, 0))] })) := by
  constructor
  · have hl := ElementRemovedAt_fault (fuel + 1) wc begin end_
    have hf := ElementRemoved_untracked_fault fuel wc begin end_ j g hb he hg hu
    cases hr : ElementRemovedAt (fuel + 1) wc begin end_ with
    | ok w =>
      rw [hr] at hl
      simp only [Except.mapError] at hl
      rw [← hl] at hf
      rcases hf with h | h | h <;> cases h
    | error e =>
      obtain ⟨f, s⟩ := e
      rw [hr] at hl
      simp only [Except.mapError] at hl
      rw [← hl] at hf
      refine ⟨f, s, rfl, ?_⟩
      rcases hf with h | h | h
      · left; cases h; rfl
      · right; left; cases h; rfl
      · right; right; cases h; rfl
  · intro hj
    subst hj
    have hne : j ≠ end_ := by omega
    have hsub : wc.mIndex.subscript (.leaf g.addr)
        = ((.null, 0, 0, 0), wc.mIndex ++ [(.leaf g.addr, (.null, 0, 0, 0))]) := by
      simp [Index.subscript, hu]
    have hfound := Index_find_append_absent wc.mIndex (.leaf g.addr) (.null, 0, 0, 0) hu
    simp only [ElementRemovedAt, hg, hsub, ElementRemoved.whileLoopAt, hne, if_false, bind,
      Except.bind, faultAt]
    simp only [Index.subscript, hfound, WrapCompositor.deref]

/-- C11 as amended, at the state withUntracked and the range that holds its
untracked leaf (source offsets 2 to 3), with a budget of five passes. -/
theorem ElementRemoved_untracked_leaf_witness :
    ((2 : Nat) ≤ 2 ∧ (2 : Nat) < 3 ∧
      withUntracked.mComposition.RawGlyphAt (2 : Nat) = .ok untrackedLeaf ∧
      withUntracked.mIndex.find (.leaf untrackedLeaf.addr) = none) ∧
    (∃ f s, ElementRemovedAt (4 + 1) withUntracked 2 3 = .error (f, s) ∧
      (f = .outOfRange ∨ f = .badPointer ∨ f = .eraseEnd)) ∧
    ((2 : Nat) = 2 → ElementRemovedAt (4 + 1) withUntracked 2 3 =
      .error (.badPointer,
        { withUntracked with
          mIndex := withUntracked.mIndex ++ [(.leaf untrackedLeaf.addr, (.null, 0, 0, 0))] })) :=
  ⟨⟨by decide, by decide, rfl, rfl⟩,
    ElementRemoved_untracked_leaf 4 withUntracked 2 3 2 untrackedLeaf (by decide) (by decide)
      rfl rfl⟩

/-- C11 as stated fails. In withUntracked the leaf at source offset 2 has no
index entry. ElementRemoved on the range that holds it ends in a null
dereference, not in a reported lookup failure, and the compositor is left with
an index that has gained an entry for the leaf. In trackedThenUntracked the
range of source offsets 2 to 4 holds a tracked leaf followed by an untracked
one: the call ends in the erase of an end iterator on line 169, and the
compositor is left with the tracked leaf erased from its row and from the
index. -/
theorem ElementRemoved_untracked_no_report :
    withUntracked.mIndex.find (.leaf untrackedLeaf.addr) = none ∧
    (∀ fuel, ElementRemovedAt (fuel + 1) withUntracked 2 3 =
      .error (.badPointer,
        { withUntracked with
          mIndex := withUntracked.mIndex ++ [(.leaf untrackedLeaf.addr, (.null, 0, 0, 0))] })) ∧
    Index.find (withUntracked.mIndex ++ [(GlyphPtr.leaf untrackedLeaf.addr, (RowPtr.null, 0, 0, 0))])
      (.leaf untrackedLeaf.addr) = some (.null, 0, 0, 0) ∧
    trackedThenUntracked.mIndex.find (.leaf untrackedLeaf.addr) = none ∧
    (∀ fuel, ElementRemovedAt (fuel + 1) trackedThenUntracked 2 4 =
      .error (.eraseEnd, trackedThenUntrackedAtFault)) ∧
    trackedThenUntracked.partition = [[mkGlyph 100 40, mkGlyph 101 40, mkGlyph 102 40]] ∧
    trackedThenUntrackedAtFault.partition = [[mkGlyph 100 40, mkGlyph 101 40]] ∧
    trackedThenUntracked.mIndex.find (.leaf 102) = some (.row 0, 2, 2, 0) ∧
    trackedThenUntrackedAtFault.mIndex.find (.leaf 102) = none := by
  refine ⟨rfl, fun fuel => rfl, rfl, rfl, fun fuel => rfl, by decide, by decide,
    rfl, rfl⟩

/-- C13 (the code departs from the claim). Three leaves of width 40 are
composed with target width 200 into one row, a consistent state; a new leaf is
appended to the source sequence and ElementAdded is called on it. For every
recursion budget, 0 included, the call ends in the out-of-range subscript of
line 105: it never returns, and it makes no recursive call at all, so it
never places the leaves of an overflowing row. -/
theorem ElementAdded_never_returns :
    Consistent (Compose (WrapCompositor.fresh threeLeaves 200)) ∧
    (ElementAdded 0 ((Compose (WrapCompositor.fresh threeLeaves 200)).withSource
        [mkGlyph 100 40, mkGlyph 101 40, mkGlyph 102 40, newLeaf]) 3 4 = .error .outOfRange) ∧
    ∀ fuel, ElementAdded fuel ((Compose (WrapCompositor.fresh threeLeaves 200)).withSource
        [mkGlyph 100 40, mkGlyph 101 40, mkGlyph 102 40, newLeaf]) 3 4 = .error .outOfRange := by
  refine ⟨by decide, rfl, fun fuel => ElementAdded_outOfRange fuel _ 3 4⟩

/-- C18 (the code departs from the claim). The state twoRows is consistent.
ElementRemoved on the second leaf of its first row completes and its cascade
moves the two leaves of the second row to the first row, but no index entry is
rewritten (line 195 is a comment): the leaf 102 is now the child at offset 1
of the row at column offset 0, and its entry still says offset 0 of the row at
column offset 1, a row that has no children. With the removed leaf taken out
of the source sequence the state is not consistent. ElementAdded reaches no
state at all: on a consistent state built by Compose it ends in the fault of
line 105. -/
theorem ElementRemoved_cascade_breaks_consistency :
    Consistent twoRows ∧
    (∀ fuel, ElementRemoved (fuel + 1) twoRows 1 2 = .ok twoRowsAfter) ∧
    twoRowsAfter.partition = [[mkGlyph 100 40, mkGlyph 102 40, mkGlyph 103 40], []] ∧
    twoRowsAfter.mIndex.find (.leaf 102) = some (.row 1, 0, 2, 1) ∧
    (twoRowsAfter.withSource [mkGlyph 100 40, mkGlyph 102 40, mkGlyph 103 40]).entryOK 1
      = false ∧
    ¬ Consistent (twoRowsAfter.withSource [mkGlyph 100 40, mkGlyph 102 40, mkGlyph 103 40]) ∧
    Consistent (Compose (WrapCompositor.fresh halfLeaves 100)) ∧
    ∀ fuel, ElementAdded fuel ((Compose (WrapCompositor.fresh halfLeaves 100)).withSource
        [newLeaf, mkGlyph 100 50, mkGlyph 101 50]) 0 1 = .error .outOfRange := by
  refine ⟨by decide, fun fuel => ?_, by decide, by decide, by decide, by decide, by decide,
    fun fuel => ElementAdded_outOfRange fuel _ 0 1⟩
  cases fuel <;> rfl

end WebBrowser2
